import Mathlib

/-! W25Q serial NOR flash driver (`drivers/flash/flash.c`).

A shallow embedding of the driver over a recording bus.  The driver talks to
the outside world through four platform primitives only (chip-select low,
chip-select high, one byte exchange, a microsecond delay).  Each primitive
appends one event to the bus trace; the byte a transfer returns is chosen by
an arbitrary device, a function of the whole history and the byte sent.
-/

/-! ## Command bytes (the `WINBOND_*` defines used by the code) -/

abbrev WINBOND_W_EN : Nat := 0x06
abbrev WINBOND_W_DE : Nat := 0x04
abbrev WINBOND_PAGE_PGM : Nat := 0x02
abbrev WINBOND_BLK_E_64K : Nat := 0xD8
abbrev WINBOND_BLK_E_32K : Nat := 0x52
abbrev WINBOND_SECTOR_E : Nat := 0x20
abbrev WINBOND_CHIP_ERASE2 : Nat := 0x60
abbrev WINBOND_READ : Nat := 0x03
abbrev WINBOND_READ_STATUS_REG_1 : Nat := 0x05

/-- Modelled from the spec: the result codes `FLASH_DRIVER_OK` and
`FLASH_DRIVER_NG` are defined in `flash.h`, which is not among the sources.
The spec speaks of a result that tells success from failure, so the two codes
are two distinct symbolic values. -/
inductive FlashResult where
  | FLASH_DRIVER_OK : FlashResult
  | FLASH_DRIVER_NG : FlashResult
deriving DecidableEq, Repr

open FlashResult

/-! ## The bus -/

/-- One observable action on the bus.  A transfer records the byte sent and
the byte received. -/
inductive BusEvent where
  | cs_low : BusEvent
  | cs_high : BusEvent
  | transfer (tx rx : Nat) : BusEvent
  | delay_us (us : Nat) : BusEvent
deriving DecidableEq, Repr

/-- The bus trace, oldest event first. -/
abbrev Bus := List BusEvent

/-- A device: the byte it answers, given everything that happened on the bus
so far and the byte now being sent. -/
abbrev Device := List BusEvent → Nat → Nat

/-- Modelled from the spec: `flash_cs_low` (io_cfg, not among the sources) is
the transport's `assert_select()`. -/
def flash_cs_low (bus : Bus) : Bus := bus ++ [BusEvent.cs_low]

/-- Modelled from the spec: `flash_cs_high` (io_cfg, not among the sources) is
the transport's `deassert_select()`. -/
def flash_cs_high (bus : Bus) : Bus := bus ++ [BusEvent.cs_high]

/-- Modelled from the spec: `spi1_transfer` (io_cfg, not among the sources) is
the transport's `exchange_byte(tx: u8) -> u8`; the argument is cut to eight
bits, as is the answer. -/
def spi1_transfer (dev : Device) (tx : Nat) (bus : Bus) : Nat × Bus :=
  (dev bus (tx % 256) % 256,
   bus ++ [BusEvent.transfer (tx % 256) (dev bus (tx % 256) % 256)])

/-- Modelled from the spec: `sys_ctrl_delay_us` (sys_ctrl, not among the
sources) is the timing service's `delay_microseconds(n)`. -/
def sys_ctrl_delay_us (us : Nat) (bus : Bus) : Bus := bus ++ [BusEvent.delay_us us]

/-! ## Static functions -/

/-- `flash_set_write_enable(bool e)`. -/
def flash_set_write_enable (dev : Device) (e : Bool) (bus : Bus) : Bus :=
  let bus := flash_cs_low bus
  let bus := if e = true then (spi1_transfer dev WINBOND_W_EN bus).2
             else (spi1_transfer dev WINBOND_W_DE bus).2
  let bus := flash_cs_high bus
  sys_ctrl_delay_us 100 bus

/-- The `do { ... } while ((reg_1 & 1) && time_out_counter)` loop of
`flash_wait_to_idle`, by recursion on `time_out_counter` at entry of the body.
The body is entered first with 10000 and again only with a nonzero counter, so
the decrement never wraps and the zero case is never reached.  Returns the
counter at loop exit and the bus. -/
def flash_wait_to_idle_loop (dev : Device) : Nat → Bus → Nat × Bus
  | 0, bus => (0, bus)
  | c + 1, bus =>
    let r := spi1_transfer dev 0x00 bus
    let reg_1 := r.1
    let time_out_counter := c
    let bus := sys_ctrl_delay_us 100 r.2
    if reg_1 &&& 1 ≠ 0 ∧ time_out_counter ≠ 0 then
      flash_wait_to_idle_loop dev time_out_counter bus
    else (time_out_counter, bus)

/-- `flash_wait_to_idle()`. -/
def flash_wait_to_idle (dev : Device) (bus : Bus) : FlashResult × Bus :=
  let bus := flash_cs_low bus
  let bus := sys_ctrl_delay_us 100 bus
  let bus := (spi1_transfer dev WINBOND_READ_STATUS_REG_1 bus).2
  let r := flash_wait_to_idle_loop dev 10000 bus
  let bus := flash_cs_high r.2
  if r.1 ≠ 0 then (FLASH_DRIVER_OK, bus) else (FLASH_DRIVER_NG, bus)

/-! ## Public functions -/

/-- The `for (i = 0; i < len; i++)` loop of `flash_read`.  The index `i` is a
`uint16_t`, so `i++` wraps at 65536, while `len` is a `uint32_t`; the loop is
run with fuel and `none` means the fuel ran out. -/
def flash_read_loop (dev : Device) (len : Nat) :
    Nat → Nat → (Nat → Nat) → Bus → Option ((Nat → Nat) × Bus)
  | 0, _, _, _ => none
  | fuel + 1, i, pbuf, bus =>
    if i < len then
      let r := spi1_transfer dev 0x00 bus
      flash_read_loop dev len fuel ((i + 1) % 65536) (Function.update pbuf i r.1) r.2
    else some (pbuf, bus)

/-- `flash_read(address, pbuf, len)`: the result code, the buffer and the bus,
or `none` when the fuel does not suffice. -/
def flash_read (fuel : Nat) (dev : Device) (address : Nat) (pbuf : Nat → Nat) (len : Nat)
    (bus : Bus) : Option (FlashResult × (Nat → Nat) × Bus) :=
  let bus := (flash_wait_to_idle dev bus).2
  let bus := flash_cs_low bus
  let bus := (spi1_transfer dev WINBOND_READ bus).2
  let bus := (spi1_transfer dev (address >>> 16) bus).2
  let bus := (spi1_transfer dev (address >>> 8) bus).2
  let bus := (spi1_transfer dev address bus).2
  match flash_read_loop dev len fuel 0 pbuf bus with
  | none => none
  | some (pbuf, bus) =>
    let bus := flash_cs_high bus
    some (FLASH_DRIVER_OK, pbuf, bus)

/-- The `while (len)` loop of `flash_write`, by recursion on `len` (which the
body decrements once).  `address` and `pbuf_index` are `uint32_t`. -/
def flash_write_loop (dev : Device) (pbuf : Nat → Nat) :
    Nat → Nat → Nat → Bool → Bus → Bus
  | 0, _, _, _, bus => bus
  | len + 1, address, pbuf_index, next_page_flag, bus =>
    let bus :=
      if next_page_flag = true then
        let bus := (flash_wait_to_idle dev bus).2
        let bus := flash_set_write_enable dev true bus
        let bus := flash_cs_low bus
        let bus := (spi1_transfer dev WINBOND_PAGE_PGM bus).2
        let bus := (spi1_transfer dev ((address >>> 16) &&& 0xff) bus).2
        let bus := (spi1_transfer dev ((address >>> 8) &&& 0xff) bus).2
        (spi1_transfer dev ((address >>> 0) &&& 0xff) bus).2
      else bus
    let bus := (spi1_transfer dev (pbuf pbuf_index) bus).2
    let pbuf_index := (pbuf_index + 1) % 2 ^ 32
    let address := (address + 1) % 2 ^ 32
    if address &&& 0xff = 0 then
      let bus := if len ≠ 0 then flash_cs_high bus else bus
      flash_write_loop dev pbuf len address pbuf_index true bus
    else
      flash_write_loop dev pbuf len address pbuf_index false bus

/-- `flash_write(address, pbuf, len)`. -/
def flash_write (dev : Device) (address : Nat) (pbuf : Nat → Nat) (len : Nat)
    (bus : Bus) : FlashResult × Bus :=
  let bus := flash_write_loop dev pbuf len address 0 true bus
  let bus := flash_cs_high bus
  flash_wait_to_idle dev bus

/-- `flash_erase_sector(address)`. -/
def flash_erase_sector (dev : Device) (address : Nat) (bus : Bus) : FlashResult × Bus :=
  if address % 0x1000 ≠ 0 then (FLASH_DRIVER_NG, bus)
  else
    let bus := (flash_wait_to_idle dev bus).2
    let bus := flash_set_write_enable dev true bus
    let bus := flash_cs_low bus
    let bus := (spi1_transfer dev WINBOND_SECTOR_E bus).2
    let bus := (spi1_transfer dev (address >>> 16) bus).2
    let bus := (spi1_transfer dev (address >>> 8) bus).2
    let bus := (spi1_transfer dev address bus).2
    let bus := flash_cs_high bus
    let bus := sys_ctrl_delay_us 100 bus
    flash_wait_to_idle dev bus

/-- `flash_erase_block_32k(address)`. -/
def flash_erase_block_32k (dev : Device) (address : Nat) (bus : Bus) : FlashResult × Bus :=
  if address % 0x8000 ≠ 0 then (FLASH_DRIVER_NG, bus)
  else
    let bus := (flash_wait_to_idle dev bus).2
    let bus := flash_set_write_enable dev true bus
    let bus := flash_cs_low bus
    let bus := (spi1_transfer dev WINBOND_BLK_E_32K bus).2
    let bus := (spi1_transfer dev (address >>> 16) bus).2
    let bus := (spi1_transfer dev (address >>> 8) bus).2
    let bus := (spi1_transfer dev address bus).2
    let bus := flash_cs_high bus
    let bus := sys_ctrl_delay_us 100 bus
    flash_wait_to_idle dev bus

/-- `flash_erase_block_64k(address)`. -/
def flash_erase_block_64k (dev : Device) (address : Nat) (bus : Bus) : FlashResult × Bus :=
  if address % 0x10000 ≠ 0 then (FLASH_DRIVER_NG, bus)
  else
    let bus := (flash_wait_to_idle dev bus).2
    let bus := flash_set_write_enable dev true bus
    let bus := flash_cs_low bus
    let bus := (spi1_transfer dev WINBOND_BLK_E_64K bus).2
    let bus := (spi1_transfer dev (address >>> 16) bus).2
    let bus := (spi1_transfer dev (address >>> 8) bus).2
    let bus := (spi1_transfer dev address bus).2
    let bus := flash_cs_high bus
    let bus := sys_ctrl_delay_us 100 bus
    flash_wait_to_idle dev bus

/-- `flash_erase_full()`. -/
def flash_erase_full (dev : Device) (bus : Bus) : FlashResult × Bus :=
  let bus := (flash_wait_to_idle dev bus).2
  let bus := flash_set_write_enable dev true bus
  let bus := flash_cs_low bus
  let bus := (spi1_transfer dev WINBOND_CHIP_ERASE2 bus).2
  let bus := flash_cs_high bus
  let bus := sys_ctrl_delay_us 100 bus
  flash_wait_to_idle dev bus

/-! ## Observing the bus -/

/-- What an observer of the bus has seen: the select-framed transactions that
are complete (each the list of its exchanged bytes, sent and received), and
the transaction in progress, if select is asserted. -/
structure Observed where
  done : List (List (Nat × Nat))
  cur : Option (List (Nat × Nat))

/-- The observer sees one event.  Asserting select starts a transaction,
deasserting it completes the one in progress, a transfer while select is
asserted belongs to the transaction in progress. -/
def Observed.step (o : Observed) : BusEvent → Observed
  | BusEvent.cs_low => ⟨o.done, some []⟩
  | BusEvent.cs_high =>
    match o.cur with
    | some f => ⟨o.done ++ [f], none⟩
    | none => o
  | BusEvent.transfer tx rx =>
    match o.cur with
    | some f => ⟨o.done, some (f ++ [(tx, rx)])⟩
    | none => o
  | BusEvent.delay_us _ => o

/-- The observer after a whole trace. -/
def observe (bus : Bus) : Observed := bus.foldl Observed.step ⟨[], none⟩

/-- The complete select-framed transactions of a trace, in order. -/
def frames (bus : Bus) : List (List (Nat × Nat)) := (observe bus).done

/-- The bytes sent in a transaction. -/
def txs (f : List (Nat × Nat)) : List Nat := f.map Prod.fst

/-- Reads a transaction as a page-program command: opcode 0x02, three address
bytes (most significant first), then the payload.  Gives the header address
and the payload bytes. -/
def pageProgram? : List (Nat × Nat) → Option (Nat × List Nat)
  | [] => none
  | (op, _) :: rest =>
    if op = WINBOND_PAGE_PGM then
      match rest with
      | (a2, _) :: (a1, _) :: (a0, _) :: payload =>
        some (a2 * 65536 + a1 * 256 + a0, txs payload)
      | _ => none
    else none

/-- The page-program commands seen on the bus, in order: header address and
payload of each. -/
def programCommands (bus : Bus) : List (Nat × List Nat) :=
  (frames bus).filterMap pageProgram?

/-- The status samples of a trace: the byte received in each filler exchange
(a transfer that sends 0x00). -/
def sampleRxs (bus : Bus) : List Nat :=
  bus.filterMap fun e =>
    match e with
    | BusEvent.transfer 0 rx => some rx
    | _ => none

/-- A status source that reports busy for exactly `K` samples and idle
afterwards: the answer to a transfer is 1 while fewer than `K` filler
exchanges have happened, and 0 from then on. -/
def busy_for (K : Nat) : Device :=
  fun hist _ => if (sampleRxs hist).length < K then 1 else 0

/-- A device that is never busy. -/
def idle_device : Device := fun _ _ => 0

/-- A device that is busy forever. -/
def busy_device : Device := fun _ _ => 1

/-- The events of a run of status samples: each sample is one filler exchange
followed by the 100 microsecond delay. -/
def sampleEvents : List Nat → List BusEvent
  | [] => []
  | rx :: rest => BusEvent.transfer 0 rx :: BusEvent.delay_us 100 :: sampleEvents rest

/-- The events of one status poll: select, delay, the status-read opcode, the
samples, deselect. -/
def pollEvents (r0 : Nat) (rxs : List Nat) : List BusEvent :=
  [BusEvent.cs_low, BusEvent.delay_us 100, BusEvent.transfer WINBOND_READ_STATUS_REG_1 r0]
    ++ sampleEvents rxs ++ [BusEvent.cs_high]

/-- A run of status samples as the poll loop can take it: at least one sample
and at most 10000, every sample before the last one busy, and the last one
idle unless all 10000 were taken. -/
def PollSamples (rxs : List Nat) : Prop :=
  rxs ≠ [] ∧ rxs.length ≤ 10000 ∧ (∀ rx ∈ rxs.dropLast, rx % 2 = 1) ∧
    (rxs.length < 10000 → ∃ last, rxs.getLast? = some last ∧ last % 2 = 0)

/-- The bus on which the poll loop starts: select, delay, opcode 0x05. -/
def pollStart (dev : Device) (bus : Bus) : Bus :=
  (spi1_transfer dev WINBOND_READ_STATUS_REG_1 (sys_ctrl_delay_us 100 (flash_cs_low bus))).2

/-- The events of a write-enable transaction: select, opcode 0x06, deselect,
then the 100 microsecond delay. -/
def writeEnableEvents (w : Nat) : List BusEvent :=
  [BusEvent.cs_low, BusEvent.transfer WINBOND_W_EN w, BusEvent.cs_high, BusEvent.delay_us 100]

/-- The events of an addressed erase command: select, the opcode, the three
address bytes most significant first, deselect, then the 100 microsecond
delay. -/
def eraseEvents (opcode address e0 e1 e2 e3 : Nat) : List BusEvent :=
  [BusEvent.cs_low, BusEvent.transfer opcode e0,
   BusEvent.transfer ((address >>> 16) &&& 0xff) e1,
   BusEvent.transfer ((address >>> 8) &&& 0xff) e2,
   BusEvent.transfer (address &&& 0xff) e3,
   BusEvent.cs_high, BusEvent.delay_us 100]

/-- The sequence of an addressed erase with outcome `out` from bus `bus`: a
status poll, a write-enable transaction, the four-byte erase command, and a
final status poll whose outcome is `out`. -/
def EraseSequence (dev : Device) (opcode address : Nat) (bus : Bus)
    (out : FlashResult × Bus) : Prop :=
  ∃ r0 rxs w e0 e1 e2 e3,
    PollSamples rxs ∧
    (flash_wait_to_idle dev bus).2 = bus ++ pollEvents r0 rxs ∧
    out = flash_wait_to_idle dev
      (bus ++ pollEvents r0 rxs ++ writeEnableEvents w ++ eraseEvents opcode address e0 e1 e2 e3)

/-- The statements of an addressed erase function after its alignment test,
with the opcode as a parameter. -/
def erase_body (dev : Device) (opcode address : Nat) (bus : Bus) : FlashResult × Bus :=
  let bus := (flash_wait_to_idle dev bus).2
  let bus := flash_set_write_enable dev true bus
  let bus := flash_cs_low bus
  let bus := (spi1_transfer dev opcode bus).2
  let bus := (spi1_transfer dev (address >>> 16) bus).2
  let bus := (spi1_transfer dev (address >>> 8) bus).2
  let bus := (spi1_transfer dev address bus).2
  let bus := flash_cs_high bus
  let bus := sys_ctrl_delay_us 100 bus
  flash_wait_to_idle dev bus

/-- The statements of the `if (next_page_flag)` block of `flash_write`, after
the flag is cleared: status poll, write enable, select, the page-program
opcode and the three address bytes. -/
def open_page_program (dev : Device) (address : Nat) (bus : Bus) : Bus :=
  let bus := (flash_wait_to_idle dev bus).2
  let bus := flash_set_write_enable dev true bus
  let bus := flash_cs_low bus
  let bus := (spi1_transfer dev WINBOND_PAGE_PGM bus).2
  let bus := (spi1_transfer dev ((address >>> 16) &&& 0xff) bus).2
  let bus := (spi1_transfer dev ((address >>> 8) &&& 0xff) bus).2
  (spi1_transfer dev ((address >>> 0) &&& 0xff) bus).2

/-- The events that open a page-program command: select, opcode 0x02 and the
three address bytes, most significant first. -/
def programHeaderEvents (address e0 e1 e2 e3 : Nat) : List BusEvent :=
  [BusEvent.cs_low, BusEvent.transfer WINBOND_PAGE_PGM e0,
   BusEvent.transfer ((address >>> 16) &&& 0xff) e1,
   BusEvent.transfer ((address >>> 8) &&& 0xff) e2,
   BusEvent.transfer (address &&& 0xff) e3]

/-- A list of exchanged bytes as transfer events. -/
def transferEvents (l : List (Nat × Nat)) : List BusEvent :=
  l.map fun x => BusEvent.transfer x.1 x.2

/-- One page-program cycle of `flash_write` as seen on the bus: the bytes
received in the status poll, the write enable and the command header, the
driver's address when the command was opened, and the payload exchanges. -/
structure ProgramCycle where
  r0 : Nat
  rxs : List Nat
  w : Nat
  e0 : Nat
  e1 : Nat
  e2 : Nat
  e3 : Nat
  address : Nat
  payload : List (Nat × Nat)

/-- The events of a cycle: status poll, write-enable transaction, command
header, payload, deselect. -/
def ProgramCycle.events (c : ProgramCycle) : List BusEvent :=
  pollEvents c.r0 c.rxs ++ writeEnableEvents c.w
    ++ programHeaderEvents c.address c.e0 c.e1 c.e2 c.e3
    ++ transferEvents c.payload ++ [BusEvent.cs_high]

/-- The page-program command of a cycle: its 24-bit header address and its
payload bytes. -/
def ProgramCycle.command (c : ProgramCycle) : Nat × List Nat := (c.address % 2 ^ 24, txs c.payload)

/-- The events of a sequence of cycles. -/
def cyclesEvents : List ProgramCycle → List BusEvent
  | [] => []
  | c :: cs => c.events ++ cyclesEvents cs

/-- The page-program commands the write loop produces, as a function of the
loop state alone: `cur` is the command in progress, if one is open.  It follows
the loop byte by byte. -/
def page_cmds (pbuf : Nat → Nat) :
    Nat → Nat → Nat → Option (Nat × List Nat) → List (Nat × List Nat)
  | 0, _, _, cur => cur.toList
  | len + 1, address, idx, cur =>
    let c : Nat × List Nat :=
      ((cur.getD (address % 2 ^ 24, [])).1,
       (cur.getD (address % 2 ^ 24, [])).2 ++ [pbuf idx % 256])
    if (address + 1) % 2 ^ 32 % 256 = 0 then
      c :: page_cmds pbuf len ((address + 1) % 2 ^ 32) ((idx + 1) % 2 ^ 32) none
    else
      page_cmds pbuf len ((address + 1) % 2 ^ 32) ((idx + 1) % 2 ^ 32) (some c)

/-- The `k` buffer bytes the write loop sends from index `idx` on. -/
def bytes_from (pbuf : Nat → Nat) : Nat → Nat → List Nat
  | _, 0 => []
  | idx, k + 1 => pbuf idx % 256 :: bytes_from pbuf ((idx + 1) % 2 ^ 32) k

/-- The transaction of a status poll as the observer sees it: opcode 0x05,
then one filler exchange per sample. -/
def pollFrame (r0 : Nat) (rxs : List Nat) : List (Nat × Nat) :=
  (WINBOND_READ_STATUS_REG_1, r0) :: rxs.map fun rx => (0, rx)

/-- The three transactions of a page-program cycle as the observer sees them:
the status poll, the write enable, the page-program command. -/
def ProgramCycle.frames (c : ProgramCycle) : List (List (Nat × Nat)) :=
  [pollFrame c.r0 c.rxs,
   [(WINBOND_W_EN, c.w)],
   (WINBOND_PAGE_PGM, c.e0) :: ((c.address >>> 16) &&& 0xff, c.e1)
     :: ((c.address >>> 8) &&& 0xff, c.e2) :: (c.address &&& 0xff, c.e3) :: c.payload]

/-- The transactions of a sequence of cycles. -/
def cyclesFrames : List ProgramCycle → List (List (Nat × Nat))
  | [] => []
  | c :: cs => c.frames ++ cyclesFrames cs

/-- The number of bytes the write loop puts in the command it opens at
`address` when `len` bytes are left: up to the end of the buffer or of the
page, whichever comes first. -/
def chunk_len (address len : Nat) : Nat := min len (256 - address % 256)

/-- The header addresses follow the payloads: each command's header is the
low 24 bits of the base address plus the number of payload bytes of the
commands before it. -/
def headersFollow : Nat → List (Nat × List Nat) → Prop
  | _, [] => True
  | base, c :: rest => c.1 = base % 2 ^ 24 ∧ headersFollow (base + c.2.length) rest

/-- The payloads of a list of commands, concatenated in order. -/
def payloadBytes : List (Nat × List Nat) → List Nat
  | [] => []
  | c :: rest => c.2 ++ payloadBytes rest

/-- The outcome of an operation that ends with a status poll: the trace ends
with the events of a poll.  If that poll stopped on an idle sample before its
10000 samples were used up, the result is `FLASH_DRIVER_OK`.  If it used up
its 10000 samples with the device busy in every one of them (the timeout), the
result is `FLASH_DRIVER_NG`.  The poll whose 10000th sample is the first idle
one is left open here. -/
def EndsWithPoll (out : FlashResult × Bus) : Prop :=
  ∃ pre r0 rxs, out.2 = pre ++ pollEvents r0 rxs ∧ PollSamples rxs ∧
    (rxs.length < 10000 → out.1 = FLASH_DRIVER_OK) ∧
    (rxs.length = 10000 → (∀ rx ∈ rxs, rx % 2 = 1) → out.1 = FLASH_DRIVER_NG)

/-- The transactions of a write: page-program cycles (status poll, write
enable, page-program command), then the final status poll.  Every poll is a
run of samples the poll loop can take. -/
def WriteFrames (F : List (List (Nat × Nat))) : Prop :=
  ∃ cycles r0 rxs, F = cyclesFrames cycles ++ [pollFrame r0 rxs] ∧
    (∀ c ∈ cycles, PollSamples c.rxs) ∧ PollSamples rxs

/-- The transactions of an addressed erase: status poll, write enable, the
erase command, final status poll. -/
def EraseFrames (opcode address : Nat) (F : List (List (Nat × Nat))) : Prop :=
  ∃ r0 rxs w e0 e1 e2 e3 r0' rxs',
    F = [pollFrame r0 rxs, [(WINBOND_W_EN, w)],
         [(opcode, e0), ((address >>> 16) &&& 0xff, e1), ((address >>> 8) &&& 0xff, e2),
          (address &&& 0xff, e3)],
         pollFrame r0' rxs'] ∧
    PollSamples rxs ∧ PollSamples rxs'

/-- The transactions of a chip erase: status poll, write enable, the one-byte
erase command, final status poll. -/
def EraseFullFrames (F : List (List (Nat × Nat))) : Prop :=
  ∃ r0 rxs w e0 r0' rxs',
    F = [pollFrame r0 rxs, [(WINBOND_W_EN, w)], [(WINBOND_CHIP_ERASE2, e0)],
         pollFrame r0' rxs'] ∧
    PollSamples rxs ∧ PollSamples rxs'

/-! ## A simulated flash medium that needs no erase -/

/-- What the simulated medium is doing within the current transaction. -/
inductive MediumMode where
  | deselected : MediumMode
  | opcode : MediumMode
  | addr (op n acc : Nat) : MediumMode
  | program (a : Nat) : MediumMode
  | read (a : Nat) : MediumMode
  | other : MediumMode

/-- The simulated medium: the stored bytes and the mode. -/
structure Medium where
  mem : Nat → Nat
  mode : MediumMode

/-- The medium sees one bus event.  After select it takes an opcode; for page
program (0x02) and read (0x03) it takes three address bytes, most significant
first; a page-program command then stores each payload byte at consecutive
addresses starting at the header address, a read command hands out the stored
bytes from the header address onward.  Nothing needs an erase and the medium is
never busy. -/
def Medium.step (m : Medium) : BusEvent → Medium
  | BusEvent.cs_low => ⟨m.mem, MediumMode.opcode⟩
  | BusEvent.cs_high => ⟨m.mem, MediumMode.deselected⟩
  | BusEvent.delay_us _ => m
  | BusEvent.transfer tx _ =>
    match m.mode with
    | MediumMode.opcode =>
      if tx = WINBOND_PAGE_PGM ∨ tx = WINBOND_READ then ⟨m.mem, MediumMode.addr tx 0 0⟩
      else ⟨m.mem, MediumMode.other⟩
    | MediumMode.addr op n acc =>
      if n < 2 then ⟨m.mem, MediumMode.addr op (n + 1) (acc * 256 + tx)⟩
      else if op = WINBOND_PAGE_PGM then ⟨m.mem, MediumMode.program (acc * 256 + tx)⟩
      else ⟨m.mem, MediumMode.read (acc * 256 + tx)⟩
    | MediumMode.program a => ⟨Function.update m.mem a tx, MediumMode.program (a + 1)⟩
    | MediumMode.read a => ⟨m.mem, MediumMode.read (a + 1)⟩
    | MediumMode.deselected => m
    | MediumMode.other => m

/-- The byte the medium answers to the next exchange: the stored byte at the
read position in a read command, zero otherwise. -/
def Medium.answer (m : Medium) : Nat :=
  match m.mode with
  | MediumMode.read a => m.mem a
  | _ => 0

/-- The medium after a whole trace, from initial contents `init`. -/
def simulate (init : Nat → Nat) (bus : Bus) : Medium :=
  bus.foldl Medium.step ⟨init, MediumMode.deselected⟩

/-- The simulated medium as a device. -/
def medium (init : Nat → Nat) : Device := fun hist _ => (simulate init hist).answer

/-- Storing a list of bytes at consecutive addresses from `a` on. -/
def writeBytes (mem : Nat → Nat) : Nat → List Nat → Nat → Nat
  | _, [] => mem
  | a, b :: bs => writeBytes (Function.update mem a b) (a + 1) bs

/-- Storing the payload of each command of a list at its header address. -/
def applyCmds (mem : Nat → Nat) : List (Nat × List Nat) → Nat → Nat
  | [] => mem
  | c :: cs => applyCmds (writeBytes mem c.1 c.2) cs

/-- The statements of `flash_read` between the status poll and the loop:
select, the read opcode and the three address bytes. -/
def read_header (dev : Device) (address : Nat) (bus : Bus) : Bus :=
  let bus := flash_cs_low bus
  let bus := (spi1_transfer dev WINBOND_READ bus).2
  let bus := (spi1_transfer dev (address >>> 16) bus).2
  let bus := (spi1_transfer dev (address >>> 8) bus).2
  (spi1_transfer dev address bus).2

/-- The events that open a read command: select, opcode 0x03 and the three
address bytes, most significant first. -/
def readHeaderEvents (address e0 e1 e2 e3 : Nat) : List BusEvent :=
  [BusEvent.cs_low, BusEvent.transfer WINBOND_READ e0,
   BusEvent.transfer ((address >>> 16) &&& 0xff) e1,
   BusEvent.transfer ((address >>> 8) &&& 0xff) e2,
   BusEvent.transfer (address &&& 0xff) e3]

/-- The events of a run of filler exchanges: each sends 0x00 and records the
byte the transport returned. -/
def fillerEvents (rs : List Nat) : List BusEvent :=
  rs.map fun rx => BusEvent.transfer 0 rx

/-- The transaction of a read command as the observer sees it. -/
def readFrame (address e0 e1 e2 e3 : Nat) (rs : List Nat) : List (Nat × Nat) :=
  (WINBOND_READ, e0) :: ((address >>> 16) &&& 0xff, e1) :: ((address >>> 8) &&& 0xff, e2)
    :: (address &&& 0xff, e3) :: rs.map fun rx => (0, rx)

/-- The bytes sent on the bus, in order: the `tx` of every transfer. -/
def sentBytes (bus : Bus) : List Nat :=
  bus.filterMap fun e =>
    match e with
    | BusEvent.transfer tx _ => some tx
    | _ => none

/-- A status source given by the sequence of its status bytes: the answer to a
transfer is `s i` when `i` filler exchanges have happened before. -/
def status_source (s : Nat → Nat) : Device :=
  fun hist _ => s (sampleRxs hist).length

/-- A device that is busy until select is deasserted for the first time, that
is during the whole first transaction, and idle ever after. -/
def busy_until_deselect : Device :=
  fun hist _ => if BusEvent.cs_high ∈ hist then 0 else 1

/-- The number of transactions that begin with the byte `op`. -/
def opcodeCount (op : Nat) (F : List (List (Nat × Nat))) : Nat :=
  F.countP fun f => (txs f).head? == some op

/-- The trace of an operation called on `bus` begins with the status poll:
it is the trace `flash_wait_to_idle` leaves when called on `bus`, followed by
more events. -/
def StartsWithPoll (dev : Device) (bus trace : Bus) : Prop :=
  ∃ rest, trace = (flash_wait_to_idle dev bus).2 ++ rest

/-- The outcome of an operation called on `bus` is that of a status poll made
as its last action: the outcome of `flash_wait_to_idle` called on `bus`
extended by the events before it. -/
def FinishesWithPoll (dev : Device) (bus : Bus) (out : FlashResult × Bus) : Prop :=
  ∃ ext, out = flash_wait_to_idle dev (bus ++ ext)

/-- Runs the chip-select discipline over a trace from select state `sel`
(`true` is asserted): `none` if select is asserted while asserted or a byte is
exchanged while select is deasserted, otherwise the select state at the end. -/
def csRun : Bool → List BusEvent → Option Bool
  | sel, [] => some sel
  | sel, BusEvent.cs_low :: es => if sel then none else csRun true es
  | _, BusEvent.cs_high :: es => csRun false es
  | sel, BusEvent.transfer _ _ :: es => if sel then csRun sel es else none
  | sel, BusEvent.delay_us _ :: es => csRun sel es

/-! ## Basic facts about the observer -/

theorem observe_snoc (bus : Bus) (e : BusEvent) :
    observe (bus ++ [e]) = (observe bus).step e := by
  simp [observe, List.foldl_append]

theorem observe_append (b1 b2 : Bus) :
    observe (b1 ++ b2) = b2.foldl Observed.step (observe b1) := by
  simp [observe, List.foldl_append]

@[simp] theorem observe_cs_low (bus : Bus) :
    observe (flash_cs_low bus) = ⟨(observe bus).done, some []⟩ := by
  simp [flash_cs_low, observe_snoc, Observed.step]

@[simp] theorem observe_delay (us : Nat) (bus : Bus) :
    observe (sys_ctrl_delay_us us bus) = observe bus := by
  simp [sys_ctrl_delay_us, observe_snoc, Observed.step]

theorem observe_transfer (dev : Device) (tx : Nat) (bus : Bus) (d : List (List (Nat × Nat)))
    (f : List (Nat × Nat)) (h : observe bus = ⟨d, some f⟩) :
    observe (spi1_transfer dev tx bus).2 = ⟨d, some (f ++ [(tx % 256, dev bus (tx % 256) % 256)])⟩ := by
  simp [spi1_transfer, observe_snoc, Observed.step, h]

theorem observe_cs_high (bus : Bus) (d : List (List (Nat × Nat)))
    (f : List (Nat × Nat)) (h : observe bus = ⟨d, some f⟩) :
    observe (flash_cs_high bus) = ⟨d ++ [f], none⟩ := by
  simp [flash_cs_high, observe_snoc, Observed.step, h]

theorem observe_sampleEvents (rxs : List Nat) : ∀ (bus : Bus) (d : List (List (Nat × Nat)))
    (f : List (Nat × Nat)), observe bus = ⟨d, some f⟩ →
    observe (bus ++ sampleEvents rxs) = ⟨d, some (f ++ rxs.map fun rx => (0, rx))⟩ := by
  induction rxs with
  | nil => intro bus d f h; simpa [sampleEvents] using h
  | cons rx rest ih =>
    intro bus d f h
    have h1 : observe (bus ++ [BusEvent.transfer 0 rx, BusEvent.delay_us 100])
        = ⟨d, some (f ++ [(0, rx)])⟩ := by
      simp [observe_append, Observed.step, h]
    have := ih _ d _ h1
    simpa [sampleEvents, List.append_assoc] using this

theorem observe_pollEvents (bus : Bus) (r0 : Nat) (rxs : List Nat) :
    observe (bus ++ pollEvents r0 rxs)
      = ⟨(observe bus).done ++ [(WINBOND_READ_STATUS_REG_1, r0) :: rxs.map fun rx => (0, rx)],
          none⟩ := by
  have h1 : observe (bus ++ [BusEvent.cs_low, BusEvent.delay_us 100,
      BusEvent.transfer WINBOND_READ_STATUS_REG_1 r0])
      = ⟨(observe bus).done, some [(WINBOND_READ_STATUS_REG_1, r0)]⟩ := by
    simp [observe_append, Observed.step]
  have h2 := observe_sampleEvents rxs _ _ _ h1
  have h3 := observe_snoc (bus ++ [BusEvent.cs_low, BusEvent.delay_us 100,
      BusEvent.transfer WINBOND_READ_STATUS_REG_1 r0] ++ sampleEvents rxs) BusEvent.cs_high
  rw [h2] at h3
  simpa [pollEvents, List.append_assoc, Observed.step] using h3

/-! ## The status poll -/

theorem and_one_ne_zero (x : Nat) : (x &&& 1 ≠ 0) ↔ x % 2 = 1 := by
  rw [Nat.and_one_is_mod]; omega

/-- The poll loop, entered with a nonzero counter, takes a nonempty run of
samples, as many as the counter drops; all but the last are busy; if the
counter is nonzero at exit the last one is idle. -/
theorem wait_loop_spec (dev : Device) : ∀ (c : Nat) (bus : Bus), ∃ rxs : List Nat,
    (flash_wait_to_idle_loop dev (c + 1) bus).2 = bus ++ sampleEvents rxs ∧
    rxs ≠ [] ∧
    rxs.length + (flash_wait_to_idle_loop dev (c + 1) bus).1 = c + 1 ∧
    (∀ rx ∈ rxs.dropLast, rx % 2 = 1) ∧
    ((flash_wait_to_idle_loop dev (c + 1) bus).1 ≠ 0 →
      ∃ last, rxs.getLast? = some last ∧ last % 2 = 0) := by
  intro c
  induction c with
  | zero =>
    intro bus
    refine ⟨[dev bus 0 % 256], ?_, by simp, ?_, by simp, ?_⟩ <;>
      simp [flash_wait_to_idle_loop, spi1_transfer, sys_ctrl_delay_us, sampleEvents]
  | succ c ih =>
    intro bus
    by_cases hb : dev bus 0 % 256 % 2 = 1
    · obtain ⟨rxs, h1, h2, h3, h4, h5⟩ :=
        ih (bus ++ [BusEvent.transfer 0 (dev bus 0 % 256), BusEvent.delay_us 100])
      have hstep : flash_wait_to_idle_loop dev (c + 1 + 1) bus
          = flash_wait_to_idle_loop dev (c + 1)
              (bus ++ [BusEvent.transfer 0 (dev bus 0 % 256), BusEvent.delay_us 100]) := by
        rw [flash_wait_to_idle_loop]
        simp [spi1_transfer, sys_ctrl_delay_us, and_one_ne_zero, hb]
      refine ⟨dev bus 0 % 256 :: rxs, ?_, by simp, ?_, ?_, ?_⟩
      · rw [hstep, h1]; simp [sampleEvents]
      · rw [hstep]; simp; omega
      · intro rx hrx
        rw [List.dropLast_cons_of_ne_nil h2] at hrx
        rcases List.mem_cons.1 hrx with h | h
        · rw [h]; exact hb
        · exact h4 rx h
      · rw [hstep]
        intro hne
        obtain ⟨last, hl, hi⟩ := h5 hne
        refine ⟨last, ?_, hi⟩
        cases rxs with
        | nil => exact absurd rfl h2
        | cons a t => simpa [List.getLast?_cons_cons] using hl
    · have hstep : flash_wait_to_idle_loop dev (c + 1 + 1) bus
          = (c + 1, bus ++ [BusEvent.transfer 0 (dev bus 0 % 256), BusEvent.delay_us 100]) := by
        rw [flash_wait_to_idle_loop]
        simp [spi1_transfer, sys_ctrl_delay_us, and_one_ne_zero, hb]
      refine ⟨[dev bus 0 % 256], ?_, by simp, ?_, by simp, ?_⟩
      · rw [hstep]; simp [sampleEvents]
      · rw [hstep]; simp; omega
      · intro _
        exact ⟨dev bus 0 % 256, by simp, by omega⟩

theorem pollStart_eq (dev : Device) (bus : Bus) :
    pollStart dev bus = bus ++ [BusEvent.cs_low, BusEvent.delay_us 100,
      BusEvent.transfer 5 (dev (bus ++ [BusEvent.cs_low, BusEvent.delay_us 100]) 5 % 256)] := by
  simp [pollStart, flash_cs_low, sys_ctrl_delay_us, spi1_transfer, WINBOND_READ_STATUS_REG_1]

theorem wait_to_idle_snd (dev : Device) (bus : Bus) :
    (flash_wait_to_idle dev bus).2
      = (flash_wait_to_idle_loop dev 10000 (pollStart dev bus)).2 ++ [BusEvent.cs_high] := by
  simp only [flash_wait_to_idle, pollStart, flash_cs_high]
  split <;> rfl

theorem wait_to_idle_fst (dev : Device) (bus : Bus) :
    (flash_wait_to_idle dev bus).1
      = if (flash_wait_to_idle_loop dev 10000 (pollStart dev bus)).1 ≠ 0
        then FLASH_DRIVER_OK else FLASH_DRIVER_NG := by
  simp only [flash_wait_to_idle, pollStart]
  split <;> rfl

/-- One status poll appends the events of a poll whose samples are a run the
loop can take; it returns success exactly when fewer than 10000 samples were
taken, and then the last sample was idle. -/
theorem wait_to_idle_spec (dev : Device) (bus : Bus) : ∃ (r0 : Nat) (rxs : List Nat),
    (flash_wait_to_idle dev bus).2 = bus ++ pollEvents r0 rxs ∧
    PollSamples rxs ∧
    ((flash_wait_to_idle dev bus).1 = FLASH_DRIVER_OK ↔ rxs.length < 10000) ∧
    ((flash_wait_to_idle dev bus).1 = FLASH_DRIVER_NG ↔ rxs.length = 10000) := by
  have key := wait_loop_spec dev 9999 (pollStart dev bus)
  simp only [Nat.reduceAdd] at key
  obtain ⟨rxs, h1, h2, h3, h4, h5⟩ := key
  refine ⟨dev (bus ++ [BusEvent.cs_low, BusEvent.delay_us 100]) 5 % 256, rxs, ?_,
    ⟨h2, by omega, h4, fun hlt => h5 (by omega)⟩, ?_, ?_⟩
  · rw [wait_to_idle_snd, h1, pollStart_eq]
    simp [pollEvents, List.append_assoc]
  · rw [wait_to_idle_fst]
    split
    · simp; omega
    · simp; omega
  · rw [wait_to_idle_fst]
    split
    · simp; omega
    · simp; omega

/-! ## Erase -/

theorem mod_256_eq_and (x : Nat) : x % 256 = x &&& 0xff := by
  have := Nat.and_pow_two_sub_one_eq_mod x 8
  simpa using this.symm

theorem erase_sector_aligned (dev : Device) (address : Nat) (bus : Bus)
    (h : address % 4096 = 0) :
    flash_erase_sector dev address bus = erase_body dev WINBOND_SECTOR_E address bus := by
  simp [flash_erase_sector, erase_body, h]

theorem erase_block_32k_aligned (dev : Device) (address : Nat) (bus : Bus)
    (h : address % 32768 = 0) :
    flash_erase_block_32k dev address bus = erase_body dev WINBOND_BLK_E_32K address bus := by
  simp [flash_erase_block_32k, erase_body, h]

theorem erase_block_64k_aligned (dev : Device) (address : Nat) (bus : Bus)
    (h : address % 65536 = 0) :
    flash_erase_block_64k dev address bus = erase_body dev WINBOND_BLK_E_64K address bus := by
  simp [flash_erase_block_64k, erase_body, h]

theorem erase_fixed_part (dev : Device) (opcode address : Nat) (b : Bus) (hop : opcode < 256) :
    ∃ w e0 e1 e2 e3,
      sys_ctrl_delay_us 100 (flash_cs_high (spi1_transfer dev address
        (spi1_transfer dev (address >>> 8) (spi1_transfer dev (address >>> 16)
          (spi1_transfer dev opcode
            (flash_cs_low (flash_set_write_enable dev true b))).2).2).2).2)
        = b ++ writeEnableEvents w ++ eraseEvents opcode address e0 e1 e2 e3 :=
  ⟨_, _, _, _, _, by
    simp only [flash_set_write_enable, flash_cs_low, flash_cs_high,
      sys_ctrl_delay_us, spi1_transfer, writeEnableEvents, eraseEvents, if_true,
      List.append_assoc, List.cons_append, List.nil_append, ← mod_256_eq_and,
      Nat.mod_eq_of_lt hop]
    rfl⟩

theorem erase_body_sequence (dev : Device) (opcode address : Nat) (bus : Bus)
    (hop : opcode < 256) :
    EraseSequence dev opcode address bus (erase_body dev opcode address bus) := by
  obtain ⟨r0, rxs, h1, h2, -, -⟩ := wait_to_idle_spec dev bus
  obtain ⟨w, e0, e1, e2, e3, h⟩ := erase_fixed_part dev opcode address (bus ++ pollEvents r0 rxs) hop
  refine ⟨r0, rxs, w, e0, e1, e2, e3, h2, h1, ?_⟩
  rw [← h, ← h1]
  rfl

/-- C5: for every address that is not a multiple of 4096, `flash_erase_sector`
returns `FLASH_DRIVER_NG` and leaves the bus exactly as it was: no select
change, no byte exchange, no delay. -/
theorem erase_sector_rejects_misaligned (dev : Device) (address : Nat) (bus : Bus)
    (h : address % 4096 ≠ 0) :
    flash_erase_sector dev address bus = (FLASH_DRIVER_NG, bus) := by
  simp [flash_erase_sector, h]

theorem erase_sector_rejects_misaligned_witness :
    0x1001 % 4096 ≠ 0 ∧ flash_erase_sector busy_device 0x1001 [] = (FLASH_DRIVER_NG, []) :=
  ⟨by decide, erase_sector_rejects_misaligned busy_device 0x1001 [] (by decide)⟩

/-- C6: for every address that is not a multiple of 32768,
`flash_erase_block_32k` returns `FLASH_DRIVER_NG` and leaves the bus as it
was, and for every address that is not a multiple of 65536 so does
`flash_erase_block_64k`. -/
theorem erase_block_rejects_misaligned (dev : Device) (address : Nat) (bus : Bus) :
    (address % 32768 ≠ 0 → flash_erase_block_32k dev address bus = (FLASH_DRIVER_NG, bus)) ∧
    (address % 65536 ≠ 0 → flash_erase_block_64k dev address bus = (FLASH_DRIVER_NG, bus)) := by
  constructor
  · intro h; simp [flash_erase_block_32k, h]
  · intro h; simp [flash_erase_block_64k, h]

theorem erase_block_rejects_misaligned_witness :
    flash_erase_block_32k idle_device 0x1000 [] = (FLASH_DRIVER_NG, []) ∧
    flash_erase_block_64k idle_device 0x8000 [] = (FLASH_DRIVER_NG, []) :=
  ⟨(erase_block_rejects_misaligned idle_device 0x1000 []).1 (by decide),
   (erase_block_rejects_misaligned idle_device 0x8000 []).2 (by decide)⟩

/-- C8: on an address aligned to its granularity each addressed erase performs
a status poll, a write-enable transaction, one select-framed command of exactly
four bytes (opcode 0x20, 0x52 or 0xD8, then address bits 23..16, 15..8, 7..0)
and a final status poll, and returns exactly the result of that final poll;
with an idle device `flash_erase_sector(0x1000)` returns success. -/
theorem erase_aligned_sequence (dev : Device) (address : Nat) (bus : Bus) :
    (address % 4096 = 0 →
      EraseSequence dev 0x20 address bus (flash_erase_sector dev address bus)) ∧
    (address % 32768 = 0 →
      EraseSequence dev 0x52 address bus (flash_erase_block_32k dev address bus)) ∧
    (address % 65536 = 0 →
      EraseSequence dev 0xD8 address bus (flash_erase_block_64k dev address bus)) ∧
    (flash_erase_sector idle_device 0x1000 []).1 = FLASH_DRIVER_OK := by
  refine ⟨fun h => ?_, fun h => ?_, fun h => ?_, by decide⟩
  · rw [erase_sector_aligned dev address bus h]
    exact erase_body_sequence dev _ address bus (by decide)
  · rw [erase_block_32k_aligned dev address bus h]
    exact erase_body_sequence dev _ address bus (by decide)
  · rw [erase_block_64k_aligned dev address bus h]
    exact erase_body_sequence dev _ address bus (by decide)

theorem erase_aligned_sequence_witness :
    EraseSequence idle_device 0x20 0x1000 [] (flash_erase_sector idle_device 0x1000 []) ∧
    EraseSequence idle_device 0x52 0x8000 [] (flash_erase_block_32k idle_device 0x8000 []) ∧
    EraseSequence idle_device 0xD8 0x10000 [] (flash_erase_block_64k idle_device 0x10000 []) :=
  ⟨(erase_aligned_sequence idle_device 0x1000 []).1 (by decide),
   (erase_aligned_sequence idle_device 0x8000 []).2.1 (by decide),
   (erase_aligned_sequence idle_device 0x10000 []).2.2.1 (by decide)⟩

/-! ## The write loop on the bus -/

theorem and_ff_mod (x : Nat) : (x &&& 0xff) % 256 = x &&& 0xff := by
  rw [← mod_256_eq_and, Nat.mod_mod]

theorem open_page_program_events (dev : Device) (address : Nat) (bus : Bus) :
    ∃ r0 rxs w e0 e1 e2 e3, PollSamples rxs ∧
      open_page_program dev address bus
        = bus ++ pollEvents r0 rxs ++ writeEnableEvents w
            ++ programHeaderEvents address e0 e1 e2 e3 := by
  obtain ⟨r0, rxs, h1, h2, -, -⟩ := wait_to_idle_spec dev bus
  have key : ∀ b : Bus, ∃ w e0 e1 e2 e3,
      (spi1_transfer dev ((address >>> 0) &&& 0xff)
        (spi1_transfer dev ((address >>> 8) &&& 0xff)
          (spi1_transfer dev ((address >>> 16) &&& 0xff)
            (spi1_transfer dev WINBOND_PAGE_PGM
              (flash_cs_low (flash_set_write_enable dev true b))).2).2).2).2
        = b ++ writeEnableEvents w ++ programHeaderEvents address e0 e1 e2 e3 :=
    fun b => ⟨_, _, _, _, _, by
      simp only [flash_set_write_enable, flash_cs_low, flash_cs_high,
        sys_ctrl_delay_us, spi1_transfer, writeEnableEvents, programHeaderEvents, if_true,
        List.append_assoc, List.cons_append, List.nil_append, and_ff_mod,
        Nat.shiftRight_zero]
      rfl⟩
  obtain ⟨w, e0, e1, e2, e3, h⟩ := key (bus ++ pollEvents r0 rxs)
  refine ⟨r0, rxs, w, e0, e1, e2, e3, h2, ?_⟩
  rw [← h, ← h1]
  rfl

theorem write_loop_true (dev : Device) (pbuf : Nat → Nat) (len address idx : Nat) (bus : Bus) :
    flash_write_loop dev pbuf (len + 1) address idx true bus
      = flash_write_loop dev pbuf (len + 1) address idx false
          (open_page_program dev address bus) := by
  simp [flash_write_loop, open_page_program]

theorem write_loop_false (dev : Device) (pbuf : Nat → Nat) (len address idx : Nat) (bus : Bus) :
    flash_write_loop dev pbuf (len + 1) address idx false bus
      = if (address + 1) % 2 ^ 32 % 256 = 0 then
          flash_write_loop dev pbuf len ((address + 1) % 2 ^ 32) ((idx + 1) % 2 ^ 32) true
            (if len ≠ 0 then flash_cs_high (spi1_transfer dev (pbuf idx) bus).2
             else (spi1_transfer dev (pbuf idx) bus).2)
        else
          flash_write_loop dev pbuf len ((address + 1) % 2 ^ 32) ((idx + 1) % 2 ^ 32) false
            (spi1_transfer dev (pbuf idx) bus).2 := by
  simp [flash_write_loop, mod_256_eq_and]

theorem page_cmds_none (pbuf : Nat → Nat) (len address idx : Nat) :
    page_cmds pbuf (len + 1) address idx none
      = page_cmds pbuf (len + 1) address idx (some (address % 2 ^ 24, [])) := by
  simp [page_cmds]

theorem page_cmds_some (pbuf : Nat → Nat) (len address idx a : Nat) (p : List Nat) :
    page_cmds pbuf (len + 1) address idx (some (a, p))
      = if (address + 1) % 2 ^ 32 % 256 = 0 then
          (a, p ++ [pbuf idx % 256])
            :: page_cmds pbuf len ((address + 1) % 2 ^ 32) ((idx + 1) % 2 ^ 32) none
        else
          page_cmds pbuf len ((address + 1) % 2 ^ 32) ((idx + 1) % 2 ^ 32)
            (some (a, p ++ [pbuf idx % 256])) := by
  rw [page_cmds]; rfl

/-- The write loop followed by the closing deselect, on the bus.  Entered with
a command open, it sends the rest of that command's payload and then whole
cycles; entered at the start of a segment with bytes left, it runs whole
cycles.  The commands are those of `page_cmds`. -/
theorem write_loop_cycles (dev : Device) (pbuf : Nat → Nat) :
    ∀ (len address idx : Nat) (bus : Bus),
      (∃ rest cycles,
        flash_cs_high (flash_write_loop dev pbuf len address idx false bus)
          = bus ++ transferEvents rest ++ [BusEvent.cs_high] ++ cyclesEvents cycles ∧
        (∀ a p, page_cmds pbuf len address idx (some (a, p))
          = (a, p ++ txs rest) :: cycles.map ProgramCycle.command) ∧
        ∀ c ∈ cycles, PollSamples c.rxs) ∧
      (len ≠ 0 → ∃ cycles,
        flash_cs_high (flash_write_loop dev pbuf len address idx true bus)
          = bus ++ cyclesEvents cycles ∧
        page_cmds pbuf len address idx none = cycles.map ProgramCycle.command ∧
        ∀ c ∈ cycles, PollSamples c.rxs) := by
  intro len
  induction len with
  | zero =>
    intro address idx bus
    refine ⟨⟨[], [], ?_, ?_, ?_⟩, fun h => absurd rfl h⟩
    · simp [flash_write_loop, flash_cs_high, transferEvents, cyclesEvents]
    · intro a p; simp [page_cmds, txs]
    · intro c hc; simp at hc
  | succ len ih =>
    have hA : ∀ (address idx : Nat) (bus : Bus), ∃ rest cycles,
        flash_cs_high (flash_write_loop dev pbuf (len + 1) address idx false bus)
          = bus ++ transferEvents rest ++ [BusEvent.cs_high] ++ cyclesEvents cycles ∧
        (∀ a p, page_cmds pbuf (len + 1) address idx (some (a, p))
          = (a, p ++ txs rest) :: cycles.map ProgramCycle.command) ∧
        ∀ c ∈ cycles, PollSamples c.rxs := by
      intro address idx bus
      rw [write_loop_false]
      by_cases hbd : (address + 1) % 2 ^ 32 % 256 = 0
      · rw [if_pos hbd]
        by_cases hl : len = 0
        · subst hl
          refine ⟨[(pbuf idx % 256, dev bus (pbuf idx % 256) % 256)], [], ?_, ?_, ?_⟩
          · simp [flash_write_loop, flash_cs_high, transferEvents, cyclesEvents, spi1_transfer]
          · intro a p
            rw [page_cmds_some, if_pos hbd]
            simp [page_cmds, txs]
          · intro c hc; simp at hc
        · obtain ⟨cycles, h1, h2, h3⟩ :=
            (ih ((address + 1) % 2 ^ 32) ((idx + 1) % 2 ^ 32)
              (flash_cs_high (spi1_transfer dev (pbuf idx) bus).2)).2 hl
          refine ⟨[(pbuf idx % 256, dev bus (pbuf idx % 256) % 256)], cycles, ?_, ?_, h3⟩
          · rw [if_pos hl, h1]
            simp [flash_cs_high, transferEvents, spi1_transfer]
          · intro a p
            rw [page_cmds_some, if_pos hbd, h2]
            simp [txs]
      · rw [if_neg hbd]
        obtain ⟨rest, cycles, h1, h2, h3⟩ :=
          (ih ((address + 1) % 2 ^ 32) ((idx + 1) % 2 ^ 32)
            (spi1_transfer dev (pbuf idx) bus).2).1
        refine ⟨(pbuf idx % 256, dev bus (pbuf idx % 256) % 256) :: rest, cycles, ?_, ?_, h3⟩
        · rw [h1]
          simp [transferEvents, spi1_transfer]
        · intro a p
          rw [page_cmds_some, if_neg hbd, h2]
          simp [txs]
    intro address idx bus
    refine ⟨hA address idx bus, fun _ => ?_⟩
    obtain ⟨r0, rxs, w, e0, e1, e2, e3, hps, hopen⟩ := open_page_program_events dev address bus
    obtain ⟨rest, cycles, h1, h2, h3⟩ := hA address idx (open_page_program dev address bus)
    refine ⟨⟨r0, rxs, w, e0, e1, e2, e3, address, rest⟩ :: cycles, ?_, ?_, ?_⟩
    · rw [write_loop_true, h1, hopen]
      simp [cyclesEvents, ProgramCycle.events, List.append_assoc]
    · rw [page_cmds_none, h2]
      simp [ProgramCycle.command]
    · intro c hc
      rcases List.mem_cons.1 hc with h | h
      · rw [h]; exact hps
      · exact h3 c h

/-- The whole of `flash_write` on a nonempty buffer, on the bus: a sequence of
page-program cycles, whose commands are those of `page_cmds`, then the final
status poll, whose outcome is the result. -/
theorem write_events (dev : Device) (address : Nat) (pbuf : Nat → Nat) (len : Nat) (bus : Bus)
    (hlen : len ≠ 0) :
    ∃ cycles r0 rxs,
      (flash_write dev address pbuf len bus).2
        = bus ++ cyclesEvents cycles ++ pollEvents r0 rxs ∧
      cycles.map ProgramCycle.command = page_cmds pbuf len address 0 none ∧
      (∀ c ∈ cycles, PollSamples c.rxs) ∧
      PollSamples rxs ∧
      ((flash_write dev address pbuf len bus).1 = FLASH_DRIVER_OK ↔ rxs.length < 10000) ∧
      ((flash_write dev address pbuf len bus).1 = FLASH_DRIVER_NG ↔ rxs.length = 10000) := by
  obtain ⟨cycles, h1, h2, h3⟩ := (write_loop_cycles dev pbuf len address 0 bus).2 hlen
  obtain ⟨r0, rxs, g1, g2, g3, g4⟩ := wait_to_idle_spec dev
    (flash_cs_high (flash_write_loop dev pbuf len address 0 true bus))
  refine ⟨cycles, r0, rxs, ?_, h2.symm, h3, g2, ?_, ?_⟩
  · rw [← h1]; exact g1
  · exact g3
  · exact g4

/-! ## What the observer sees of a write -/

theorem observe_transferEvents (l : List (Nat × Nat)) : ∀ (bus : Bus)
    (d : List (List (Nat × Nat))) (f : List (Nat × Nat)), observe bus = ⟨d, some f⟩ →
    observe (bus ++ transferEvents l) = ⟨d, some (f ++ l)⟩ := by
  induction l with
  | nil => intro bus d f h; simpa [transferEvents] using h
  | cons x rest ih =>
    intro bus d f h
    have h1 : observe (bus ++ [BusEvent.transfer x.1 x.2]) = ⟨d, some (f ++ [x])⟩ := by
      simp [observe_snoc, Observed.step, h]
    have := ih _ d _ h1
    simpa [transferEvents, List.append_assoc] using this

theorem observe_cycle (c : ProgramCycle) (bus : Bus) :
    observe (bus ++ c.events) = ⟨(observe bus).done ++ c.frames, none⟩ := by
  have h1 := observe_pollEvents bus c.r0 c.rxs
  have h2 : observe (bus ++ pollEvents c.r0 c.rxs ++ writeEnableEvents c.w
      ++ programHeaderEvents c.address c.e0 c.e1 c.e2 c.e3)
      = ⟨(observe bus).done ++ [pollFrame c.r0 c.rxs, [(WINBOND_W_EN, c.w)]],
          some [(WINBOND_PAGE_PGM, c.e0), ((c.address >>> 16) &&& 0xff, c.e1),
            ((c.address >>> 8) &&& 0xff, c.e2), (c.address &&& 0xff, c.e3)]⟩ := by
    rw [List.append_assoc (bus ++ pollEvents c.r0 c.rxs), observe_append, h1]
    simp [writeEnableEvents, programHeaderEvents, Observed.step, pollFrame]
  have h3 := observe_transferEvents c.payload _ _ _ h2
  have h4 := observe_snoc (bus ++ pollEvents c.r0 c.rxs ++ writeEnableEvents c.w
      ++ programHeaderEvents c.address c.e0 c.e1 c.e2 c.e3 ++ transferEvents c.payload)
      BusEvent.cs_high
  rw [h3] at h4
  simpa [ProgramCycle.events, ProgramCycle.frames, List.append_assoc, Observed.step] using h4

theorem observe_cycles (cycles : List ProgramCycle) : ∀ bus : Bus,
    observe (bus ++ cyclesEvents cycles) = ⟨(observe bus).done ++ cyclesFrames cycles, none⟩ ∨
      cycles = [] := by
  induction cycles with
  | nil => intro bus; exact Or.inr rfl
  | cons c cs ih =>
    intro bus
    left
    rcases ih (bus ++ c.events) with h | h
    · simp only [cyclesEvents, cyclesFrames, ← List.append_assoc]
      rw [h, observe_cycle]
    · subst h
      simp [cyclesEvents, cyclesFrames, observe_cycle]

theorem frames_cycles_poll (cycles : List ProgramCycle) (r0 : Nat) (rxs : List Nat) (bus : Bus) :
    frames (bus ++ cyclesEvents cycles ++ pollEvents r0 rxs)
      = frames bus ++ cyclesFrames cycles ++ [pollFrame r0 rxs] := by
  unfold frames
  rw [observe_pollEvents]
  rcases observe_cycles cycles bus with h | h
  · rw [h]; simp [pollFrame]
  · subst h; simp [cyclesEvents, cyclesFrames, pollFrame]

theorem header_decode (A : Nat) :
    ((A >>> 16) &&& 0xff) * 65536 + ((A >>> 8) &&& 0xff) * 256 + (A &&& 0xff) = A % 2 ^ 24 := by
  simp only [← mod_256_eq_and, Nat.shiftRight_eq_div_pow]
  omega

theorem pageProgram_pollFrame (r0 : Nat) (rxs : List Nat) :
    pageProgram? (pollFrame r0 rxs) = none := by
  simp [pageProgram?, pollFrame]

theorem filterMap_cyclesFrames (cycles : List ProgramCycle) :
    (cyclesFrames cycles).filterMap pageProgram? = cycles.map ProgramCycle.command := by
  induction cycles with
  | nil => simp [cyclesFrames]
  | cons c cs ih =>
    simp only [cyclesFrames, ProgramCycle.frames, List.cons_append, List.nil_append,
      List.filterMap_cons, pageProgram_pollFrame, ih]
    simp [pageProgram?, ProgramCycle.command, header_decode]

/-- The page-program commands of a write of a nonempty buffer, observed from an
empty trace, are those of `page_cmds`. -/
theorem write_programCommands (dev : Device) (address : Nat) (pbuf : Nat → Nat) (len : Nat)
    (hlen : len ≠ 0) :
    programCommands (flash_write dev address pbuf len []).2 = page_cmds pbuf len address 0 none := by
  obtain ⟨cycles, r0, rxs, h1, h2, -⟩ := write_events dev address pbuf len [] hlen
  rw [programCommands, h1, frames_cycles_poll]
  simp [frames, observe, List.filterMap_append, filterMap_cyclesFrames, pageProgram_pollFrame, h2]

/-! ## The commands, page by page -/

theorem bytes_from_length (pbuf : Nat → Nat) : ∀ (k idx : Nat),
    (bytes_from pbuf idx k).length = k := by
  intro k
  induction k with
  | zero => intro idx; simp [bytes_from]
  | succ k ih => intro idx; simp [bytes_from, ih]

theorem bytes_from_eq (pbuf : Nat → Nat) : ∀ (k idx : Nat), idx + k ≤ 2 ^ 32 →
    bytes_from pbuf idx k = (List.range' idx k).map fun i => pbuf i % 256 := by
  intro k
  induction k with
  | zero => intro idx _; simp [bytes_from]
  | succ k ih =>
    intro idx h
    rw [bytes_from, List.range'_succ, List.map_cons]
    congr 1
    by_cases hk : k = 0
    · subst hk; simp [bytes_from]
    · have h1 : (idx + 1) % 2 ^ 32 = idx + 1 := Nat.mod_eq_of_lt (by omega)
      rw [h1]
      exact ih (idx + 1) (by omega)

theorem chunk_len_pos (address len : Nat) (h : len ≠ 0) : 1 ≤ chunk_len address len := by
  unfold chunk_len; omega

theorem chunk_len_le (address len : Nat) :
    chunk_len address len ≤ len ∧ address % 256 + chunk_len address len ≤ 256 := by
  unfold chunk_len; omega

/-- With a command open, the loop completes it with the next `chunk_len` bytes
and goes on from the next page. -/
theorem page_cmds_chunk_some (pbuf : Nat → Nat) : ∀ (len address idx a : Nat) (p : List Nat),
    page_cmds pbuf len address idx (some (a, p))
      = (a, p ++ bytes_from pbuf idx (chunk_len address len))
          :: page_cmds pbuf (len - chunk_len address len)
              ((address + chunk_len address len) % 2 ^ 32)
              ((idx + chunk_len address len) % 2 ^ 32) none := by
  intro len
  induction len with
  | zero =>
    intro address idx a p
    simp [page_cmds, chunk_len, bytes_from]
  | succ len ih =>
    intro address idx a p
    rw [page_cmds_some]
    by_cases hbd : (address + 1) % 2 ^ 32 % 256 = 0
    · have hk : chunk_len address (len + 1) = 1 := by unfold chunk_len; omega
      rw [if_pos hbd, hk]
      simp [bytes_from]
    · have hk : chunk_len address (len + 1)
          = chunk_len ((address + 1) % 2 ^ 32) len + 1 := by unfold chunk_len; omega
      rw [if_neg hbd, ih, hk]
      have e1 : ((address + 1) % 2 ^ 32 + chunk_len ((address + 1) % 2 ^ 32) len) % 2 ^ 32
          = (address + (chunk_len ((address + 1) % 2 ^ 32) len + 1)) % 2 ^ 32 := by omega
      have e2 : ((idx + 1) % 2 ^ 32 + chunk_len ((address + 1) % 2 ^ 32) len) % 2 ^ 32
          = (idx + (chunk_len ((address + 1) % 2 ^ 32) len + 1)) % 2 ^ 32 := by omega
      have e3 : len + 1 - (chunk_len ((address + 1) % 2 ^ 32) len + 1)
          = len - chunk_len ((address + 1) % 2 ^ 32) len := by omega
      rw [e1, e2, e3, bytes_from]
      simp

/-- At the start of a segment with bytes left, the loop emits one command with
the next `chunk_len` bytes, headed by the low 24 bits of the address, and goes
on from the next page. -/
theorem page_cmds_chunk (pbuf : Nat → Nat) (len address idx : Nat) (h : len ≠ 0) :
    page_cmds pbuf len address idx none
      = (address % 2 ^ 24, bytes_from pbuf idx (chunk_len address len))
          :: page_cmds pbuf (len - chunk_len address len)
              ((address + chunk_len address len) % 2 ^ 32)
              ((idx + chunk_len address len) % 2 ^ 32) none := by
  obtain ⟨n, rfl⟩ := Nat.exists_eq_succ_of_ne_zero h
  rw [page_cmds_none, page_cmds_chunk_some]
  simp

theorem write_programCommands_zero (dev : Device) (address : Nat) (pbuf : Nat → Nat) :
    programCommands (flash_write dev address pbuf 0 []).2 = [] := by
  obtain ⟨r0, rxs, h1, -⟩ := wait_to_idle_spec dev (flash_cs_high [])
  have h2 : (flash_write dev address pbuf 0 []).2 = flash_cs_high [] ++ pollEvents r0 rxs := h1
  rw [programCommands, frames, h2, observe_pollEvents]
  have := pageProgram_pollFrame r0 rxs
  simp [flash_cs_high, observe, Observed.step, pollFrame] at this ⊢
  exact this

theorem write_programCommands_all (dev : Device) (address : Nat) (pbuf : Nat → Nat) (len : Nat) :
    programCommands (flash_write dev address pbuf len []).2 = page_cmds pbuf len address 0 none := by
  by_cases h : len = 0
  · subst h; rw [write_programCommands_zero]; simp [page_cmds]
  · exact write_programCommands dev address pbuf len h

theorem page_cmds_bounds (pbuf : Nat → Nat) : ∀ (n len : Nat), len ≤ n → ∀ (address idx : Nat),
    (∀ c ∈ page_cmds pbuf len address idx none,
      1 ≤ c.2.length ∧ c.2.length ≤ 256 ∧ c.1 % 256 + c.2.length ≤ 256) ∧
    (∀ c ∈ (page_cmds pbuf len address idx none).tail, c.1 % 256 = 0) ∧
    (address % 256 = 0 → ∀ c ∈ page_cmds pbuf len address idx none, c.1 % 256 = 0) := by
  intro n
  induction n with
  | zero =>
    intro len hlen address idx
    have : len = 0 := by omega
    subst this
    simp [page_cmds]
  | succ n ih =>
    intro len hlen address idx
    by_cases h0 : len = 0
    · subst h0; simp [page_cmds]
    · have hpos := chunk_len_pos address len h0
      have hle := chunk_len_le address len
      obtain ⟨r1, -, r3⟩ := ih (len - chunk_len address len) (by omega)
        ((address + chunk_len address len) % 2 ^ 32) ((idx + chunk_len address len) % 2 ^ 32)
      have hrest : ∀ c ∈ page_cmds pbuf (len - chunk_len address len)
          ((address + chunk_len address len) % 2 ^ 32)
          ((idx + chunk_len address len) % 2 ^ 32) none, c.1 % 256 = 0 := by
        by_cases hz : len - chunk_len address len = 0
        · rw [hz]; simp [page_cmds]
        · apply r3
          unfold chunk_len at hz hle hpos ⊢
          omega
      rw [page_cmds_chunk pbuf len address idx h0]
      refine ⟨?_, ?_, ?_⟩
      · intro c hc
        rcases List.mem_cons.1 hc with h | h
        · subst h
          simp only [bytes_from_length]
          omega
        · exact r1 c h
      · intro c hc
        exact hrest c (by simpa using hc)
      · intro ha c hc
        rcases List.mem_cons.1 hc with h | h
        · subst h
          show address % 2 ^ 24 % 256 = 0
          omega
        · exact hrest c h

theorem headersFollow_congr : ∀ (l : List (Nat × List Nat)) (b b' : Nat),
    b % 2 ^ 24 = b' % 2 ^ 24 → headersFollow b l → headersFollow b' l := by
  intro l
  induction l with
  | nil => intro b b' _ _; trivial
  | cons c rest ih =>
    intro b b' hb h
    obtain ⟨h1, h2⟩ := h
    refine ⟨by rw [h1, hb], ih _ _ ?_ h2⟩
    omega

theorem page_cmds_content (pbuf : Nat → Nat) : ∀ (n len : Nat), len ≤ n →
    ∀ (address idx : Nat), idx + len ≤ 2 ^ 32 →
    payloadBytes (page_cmds pbuf len address idx none)
        = (List.range' idx len).map (fun i => pbuf i % 256) ∧
    headersFollow address (page_cmds pbuf len address idx none) := by
  intro n
  induction n with
  | zero =>
    intro len hlen address idx _
    have : len = 0 := by omega
    subst this
    simp [page_cmds, payloadBytes, headersFollow]
  | succ n ih =>
    intro len hlen address idx hidx
    by_cases h0 : len = 0
    · subst h0; simp [page_cmds, payloadBytes, headersFollow]
    · have hpos := chunk_len_pos address len h0
      have hle := chunk_len_le address len
      have hmod : (idx + chunk_len address len) % 2 ^ 32 = idx + chunk_len address len ∨
          len - chunk_len address len = 0 := by omega
      rw [page_cmds_chunk pbuf len address idx h0]
      rcases hmod with hm | hz
      · obtain ⟨r1, r2⟩ := ih (len - chunk_len address len) (by omega)
          ((address + chunk_len address len) % 2 ^ 32) (idx + chunk_len address len) (by omega)
        rw [hm]
        refine ⟨?_, ?_, ?_⟩
        · rw [payloadBytes, r1, bytes_from_eq pbuf _ _ (by omega), ← List.map_append]
          congr 1
          have := List.range'_append idx (chunk_len address len) (len - chunk_len address len) 1
          simp only [Nat.one_mul] at this
          rw [this]
          congr 1
          omega
        · rfl
        · apply headersFollow_congr _ _ _ _ r2
          simp only [bytes_from_length]
          omega
      · rw [hz]
        have hk : chunk_len address len = len := by omega
        refine ⟨?_, ?_, ?_⟩
        · simp only [page_cmds, Option.toList, payloadBytes, List.append_nil]
          rw [bytes_from_eq pbuf _ _ (by omega), hk]
        · rfl
        · simp [page_cmds, headersFollow]

/-! ## Page splitting -/

/-- C1: for every start address and every nonempty buffer, and whatever the
device answers, `flash_write` emits at least one page-program command; every
command but the first has a header address whose low 8 bits are zero; every
command carries between 1 and 256 payload bytes and stays within its page:
header address mod 256 plus payload length is at most 256. -/
theorem write_commands_within_page (dev : Device) (address : Nat) (pbuf : Nat → Nat)
    (len : Nat) (hlen : len ≠ 0) :
    programCommands (flash_write dev address pbuf len []).2 ≠ [] ∧
    (∀ c ∈ (programCommands (flash_write dev address pbuf len []).2).tail, c.1 % 256 = 0) ∧
    (∀ c ∈ programCommands (flash_write dev address pbuf len []).2,
      1 ≤ c.2.length ∧ c.2.length ≤ 256 ∧ c.1 % 256 + c.2.length ≤ 256) := by
  rw [write_programCommands_all]
  obtain ⟨h1, h2, -⟩ := page_cmds_bounds pbuf len len (Nat.le_refl _) address 0
  refine ⟨?_, h2, h1⟩
  rw [page_cmds_chunk pbuf len address 0 hlen]
  simp

theorem write_commands_within_page_witness :
    programCommands (flash_write busy_device 0x1FE (fun i => i) 3 []).2 ≠ [] ∧
    (∀ c ∈ (programCommands (flash_write busy_device 0x1FE (fun i => i) 3 []).2).tail,
      c.1 % 256 = 0) ∧
    (∀ c ∈ programCommands (flash_write busy_device 0x1FE (fun i => i) 3 []).2,
      1 ≤ c.2.length ∧ c.2.length ≤ 256 ∧ c.1 % 256 + c.2.length ≤ 256) :=
  write_commands_within_page busy_device 0x1FE (fun i => i) 3 (by decide)

/-- C2: for every start address and every buffer of `len < 2^32` bytes, and
whatever the device answers, the payloads of the page-program commands of
`flash_write`, concatenated in order, are exactly the buffer, and the header
address of each command is the low 24 bits of the start address plus the
buffer offset at which its payload starts. -/
theorem write_payloads_are_buffer (dev : Device) (address : Nat) (pbuf : Nat → Nat)
    (len : Nat) (hlen : len < 2 ^ 32) (hbuf : ∀ i, i < len → pbuf i < 256) :
    payloadBytes (programCommands (flash_write dev address pbuf len []).2)
        = (List.range len).map pbuf ∧
    headersFollow address (programCommands (flash_write dev address pbuf len []).2) := by
  rw [write_programCommands_all]
  obtain ⟨h1, h2⟩ := page_cmds_content pbuf len len (Nat.le_refl _) address 0 (by omega)
  refine ⟨?_, h2⟩
  rw [h1, List.range_eq_range']
  apply List.map_congr_left
  intro i hi
  have : i < len := by simpa using hi
  exact Nat.mod_eq_of_lt (hbuf i this)

theorem write_payloads_are_buffer_witness :
    payloadBytes (programCommands (flash_write idle_device 0xFFFFFE (fun i => i + 7) 3 []).2)
        = (List.range 3).map (fun i => i + 7) ∧
    headersFollow 0xFFFFFE
      (programCommands (flash_write idle_device 0xFFFFFE (fun i => i + 7) 3 []).2) :=
  write_payloads_are_buffer idle_device 0xFFFFFE (fun i => i + 7) 3 (by decide)
    (fun i hi => by show i + 7 < 256; omega)

theorem write_at_ff_300 (dev : Device) (pbuf : Nat → Nat) :
    programCommands (flash_write dev 0xFF pbuf 300 []).2
      = [(0xFF, [pbuf 0 % 256]),
         (0x100, (List.range' 1 256).map fun i => pbuf i % 256),
         (0x200, (List.range' 257 43).map fun i => pbuf i % 256)] := by
  have k1 : chunk_len 0xFF 300 = 1 := by decide
  have k2 : chunk_len 256 299 = 256 := by decide
  have k3 : chunk_len 512 43 = 43 := by decide
  rw [write_programCommands_all, page_cmds_chunk pbuf 300 0xFF 0 (by decide), k1]
  simp only [Nat.reduceAdd, Nat.reduceSub, Nat.reducePow, Nat.reduceMod]
  rw [page_cmds_chunk pbuf 299 256 1 (by decide), k2]
  simp only [Nat.reduceAdd, Nat.reduceSub, Nat.reducePow, Nat.reduceMod]
  rw [page_cmds_chunk pbuf 43 512 257 (by decide), k3]
  simp only [Nat.reduceAdd, Nat.reduceSub, Nat.reducePow, Nat.reduceMod]
  rw [bytes_from_eq pbuf 1 0 (by decide), bytes_from_eq pbuf 256 1 (by decide),
    bytes_from_eq pbuf 43 257 (by decide)]
  simp [page_cmds]

/-- C4, as the code has it: writing 300 bytes at 0x0000FF emits exactly three
page-program commands, whatever the device answers and whatever the bytes are:
one byte at 0x0000FF, the next 256 bytes at 0x000100, the last 43 bytes at
0x000200. -/
theorem write_300_at_ff_three_commands (dev : Device) (pbuf : Nat → Nat) :
    programCommands (flash_write dev 0xFF pbuf 300 []).2
      = [(0xFF, [pbuf 0 % 256]),
         (0x100, (List.range' 1 256).map fun i => pbuf i % 256),
         (0x200, (List.range' 257 43).map fun i => pbuf i % 256)] :=
  write_at_ff_300 dev pbuf

/-- C4 as stated fails: the write of 300 bytes at 0x0000FF is not a pair of
commands at 0x0000FF and 0x000100. -/
theorem write_300_at_ff_not_two_commands :
    ¬ ∃ p0 p1, programCommands (flash_write idle_device 0xFF (fun _ => 0) 300 []).2
        = [(0xFF, p0), (0x100, p1)] := by
  rintro ⟨p0, p1, h⟩
  rw [write_at_ff_300] at h
  have hlen := congrArg List.length h
  simp only [List.length_cons, List.length_nil] at hlen
  omega

/-! ## The status poll against particular devices -/

theorem sampleRxs_sample (bus : Bus) (rx : Nat) :
    sampleRxs (bus ++ [BusEvent.transfer 0 rx, BusEvent.delay_us 100]) = sampleRxs bus ++ [rx] := by
  simp [sampleRxs, List.filterMap_append]

theorem wait_loop_step_busy (dev : Device) (c : Nat) (bus : Bus) (h : dev bus 0 % 256 = 1) :
    flash_wait_to_idle_loop dev (c + 1 + 1) bus
      = flash_wait_to_idle_loop dev (c + 1)
          (bus ++ [BusEvent.transfer 0 1, BusEvent.delay_us 100]) := by
  rw [flash_wait_to_idle_loop]
  simp [spi1_transfer, sys_ctrl_delay_us, and_one_ne_zero, h]

theorem wait_loop_last_busy (dev : Device) (bus : Bus) (h : dev bus 0 % 256 = 1) :
    flash_wait_to_idle_loop dev 1 bus
      = (0, bus ++ [BusEvent.transfer 0 1, BusEvent.delay_us 100]) := by
  rw [flash_wait_to_idle_loop]
  simp [spi1_transfer, sys_ctrl_delay_us, h]

theorem wait_loop_step_idle (dev : Device) (c : Nat) (bus : Bus) (h : dev bus 0 % 256 = 0) :
    flash_wait_to_idle_loop dev (c + 1) bus
      = (c, bus ++ [BusEvent.transfer 0 0, BusEvent.delay_us 100]) := by
  rw [flash_wait_to_idle_loop]
  simp [spi1_transfer, sys_ctrl_delay_us, h]

/-- The poll loop against a source that is busy for `K` samples, entered with
counter `c + 1` when `K - m` samples were taken already: if the `m` remaining
busy samples fit in `c`, it stops on the idle sample with `c - m` left;
otherwise it takes `c + 1` busy samples and the counter is zero. -/
theorem wait_loop_busy_for (K : Nat) : ∀ (c m : Nat) (bus : Bus),
    m = K - (sampleRxs bus).length →
    (m ≤ c → flash_wait_to_idle_loop (busy_for K) (c + 1) bus
        = (c - m, bus ++ sampleEvents (List.replicate m 1 ++ [0]))) ∧
    (c < m → flash_wait_to_idle_loop (busy_for K) (c + 1) bus
        = (0, bus ++ sampleEvents (List.replicate (c + 1) 1))) := by
  intro c
  induction c with
  | zero =>
    intro m bus hm
    constructor
    · intro h
      have hm0 : m = 0 := by omega
      have hidle : busy_for K bus 0 % 256 = 0 := by
        have : ¬ (sampleRxs bus).length < K := by omega
        simp [busy_for, this]
      rw [wait_loop_step_idle _ _ _ hidle, hm0]
      simp [sampleEvents]
    · intro h
      have hbusy : busy_for K bus 0 % 256 = 1 := by
        have : (sampleRxs bus).length < K := by omega
        simp [busy_for, this]
      rw [wait_loop_last_busy _ _ hbusy]
      simp [sampleEvents]
  | succ c ih =>
    intro m bus hm
    by_cases hlt : (sampleRxs bus).length < K
    · have hbusy : busy_for K bus 0 % 256 = 1 := by simp [busy_for, hlt]
      obtain ⟨m', rfl⟩ : ∃ m', m = m' + 1 := ⟨m - 1, by omega⟩
      have hm' : m' = K - (sampleRxs (bus ++ [BusEvent.transfer 0 1,
          BusEvent.delay_us 100])).length := by
        rw [sampleRxs_sample]; simp; omega
      obtain ⟨i1, i2⟩ := ih m' _ hm'
      rw [wait_loop_step_busy _ _ _ hbusy]
      constructor
      · intro h
        rw [i1 (by omega)]
        simp [sampleEvents, List.replicate_succ]
      · intro h
        rw [i2 (by omega)]
        simp [sampleEvents, List.replicate_succ]
    · have hidle : busy_for K bus 0 % 256 = 0 := by simp [busy_for, hlt]
      have hm0 : m = 0 := by omega
      rw [wait_loop_step_idle _ _ _ hidle, hm0]
      simp [sampleEvents]

theorem pollStart_busy_for (K : Nat) :
    pollStart (busy_for K) []
      = [BusEvent.cs_low, BusEvent.delay_us 100, BusEvent.transfer 5 (if 0 < K then 1 else 0)] := by
  rw [pollStart_eq]
  by_cases h : 0 < K <;> simp [busy_for, sampleRxs, h]

/-- The status poll against a source that is busy for `K` samples: success
after `K + 1` samples when `K < 9999`; the timeout result after 10000 samples
when `K ≥ 9999`, the last of them idle when `K = 9999`. -/
theorem wait_to_idle_busy_for (K : Nat) :
    (K < 9999 → flash_wait_to_idle (busy_for K) []
        = (FLASH_DRIVER_OK,
            pollEvents (if 0 < K then 1 else 0) (List.replicate K 1 ++ [0]))) ∧
    (K = 9999 → flash_wait_to_idle (busy_for K) []
        = (FLASH_DRIVER_NG,
            pollEvents (if 0 < K then 1 else 0) (List.replicate K 1 ++ [0]))) ∧
    (10000 ≤ K → flash_wait_to_idle (busy_for K) []
        = (FLASH_DRIVER_NG,
            pollEvents (if 0 < K then 1 else 0) (List.replicate 10000 1))) := by
  have hs : K = K - (sampleRxs (pollStart (busy_for K) [])).length := by
    rw [pollStart_busy_for]; simp [sampleRxs]
  obtain ⟨i1, i2⟩ := wait_loop_busy_for K 9999 K _ hs
  simp only [Nat.reduceAdd] at i1 i2
  refine ⟨fun h => ?_, fun h => ?_, fun h => ?_⟩
  · apply Prod.ext
    · rw [wait_to_idle_fst, i1 (by omega)]
      have : 9999 - K ≠ 0 := by omega
      simp [this]
    · rw [wait_to_idle_snd, i1 (by omega), pollStart_busy_for]
      rfl
  · apply Prod.ext
    · rw [wait_to_idle_fst, i1 (by omega)]
      have : 9999 - K = 0 := by omega
      simp [this]
    · rw [wait_to_idle_snd, i1 (by omega), pollStart_busy_for]
      rfl
  · apply Prod.ext
    · rw [wait_to_idle_fst, i2 (by omega)]
      simp
    · rw [wait_to_idle_snd, i2 (by omega), pollStart_busy_for]
      rfl

/-- C7, at the edge of the budget: against a source that is busy for exactly
9999 samples and idle afterwards, `flash_wait_to_idle` takes 10000 samples, the
last of which reports idle, and still returns `FLASH_DRIVER_NG`. -/
theorem wait_to_idle_idle_on_last_sample :
    flash_wait_to_idle (busy_for 9999) []
      = (FLASH_DRIVER_NG, pollEvents 1 (List.replicate 9999 1 ++ [0])) := by
  have h := (wait_to_idle_busy_for 9999).2.1 rfl
  rw [if_pos (by decide)] at h
  exact h

theorem wait_loop_busy_device : ∀ (c : Nat) (bus : Bus),
    flash_wait_to_idle_loop busy_device (c + 1) bus
      = (0, bus ++ sampleEvents (List.replicate (c + 1) 1)) := by
  intro c
  induction c with
  | zero =>
    intro bus
    rw [wait_loop_last_busy _ _ (by simp [busy_device])]
    simp [sampleEvents]
  | succ c ih =>
    intro bus
    rw [wait_loop_step_busy _ _ _ (by simp [busy_device]), ih]
    simp [sampleEvents, List.replicate_succ]

theorem wait_to_idle_busy_device (bus : Bus) :
    flash_wait_to_idle busy_device bus
      = (FLASH_DRIVER_NG, bus ++ pollEvents 1 (List.replicate 10000 1)) := by
  have h := wait_loop_busy_device 9999 (pollStart busy_device bus)
  simp only [Nat.reduceAdd] at h
  apply Prod.ext
  · rw [wait_to_idle_fst, h]; simp
  · rw [wait_to_idle_snd, h, pollStart_eq]
    simp only [busy_device, pollEvents, List.append_assoc]

/-! ## Results and gating of the mutating operations -/

theorem erase_body_ends_with_poll (dev : Device) (opcode address : Nat) (bus : Bus) :
    EndsWithPoll (erase_body dev opcode address bus) := by
  unfold erase_body
  simp only []
  obtain ⟨r0, rxs, h1, h2, h3, h4⟩ := wait_to_idle_spec dev
    (sys_ctrl_delay_us 100 (flash_cs_high (spi1_transfer dev address
      (spi1_transfer dev (address >>> 8) (spi1_transfer dev (address >>> 16)
        (spi1_transfer dev opcode (flash_cs_low (flash_set_write_enable dev true
          (flash_wait_to_idle dev bus).2))).2).2).2).2))
  exact ⟨_, r0, rxs, h1, h2, fun h => h3.2 h, fun h _ => h4.2 h⟩

theorem observe_erase (bus : Bus) (r0 : Nat) (rxs : List Nat) (w opcode address e0 e1 e2 e3 : Nat)
    (r0' : Nat) (rxs' : List Nat) :
    frames (bus ++ pollEvents r0 rxs ++ writeEnableEvents w
        ++ eraseEvents opcode address e0 e1 e2 e3 ++ pollEvents r0' rxs')
      = frames bus ++ [pollFrame r0 rxs, [(WINBOND_W_EN, w)],
          [(opcode, e0), ((address >>> 16) &&& 0xff, e1), ((address >>> 8) &&& 0xff, e2),
           (address &&& 0xff, e3)],
          pollFrame r0' rxs'] := by
  unfold frames
  rw [observe_pollEvents, List.append_assoc (bus ++ pollEvents r0 rxs), observe_append,
    observe_pollEvents]
  simp [writeEnableEvents, eraseEvents, Observed.step, pollFrame]

theorem erase_body_frames (dev : Device) (opcode address : Nat) (hop : opcode < 256) :
    EraseFrames opcode address (frames (erase_body dev opcode address []).2) := by
  obtain ⟨r0, rxs, w, e0, e1, e2, e3, h1, -, h3⟩ := erase_body_sequence dev opcode address [] hop
  obtain ⟨r0', rxs', g1, g2, -, -⟩ := wait_to_idle_spec dev
    ([] ++ pollEvents r0 rxs ++ writeEnableEvents w ++ eraseEvents opcode address e0 e1 e2 e3)
  refine ⟨r0, rxs, w, e0, e1, e2, e3, r0', rxs', ?_, h1, g2⟩
  rw [h3, g1, observe_erase]
  simp [frames, observe]

theorem erase_full_frames (dev : Device) :
    EraseFullFrames (frames (flash_erase_full dev []).2) := by
  obtain ⟨r0, rxs, h1, h2, -, -⟩ := wait_to_idle_spec dev []
  have key : ∀ b : Bus, ∃ w e0,
      sys_ctrl_delay_us 100 (flash_cs_high (spi1_transfer dev WINBOND_CHIP_ERASE2
        (flash_cs_low (flash_set_write_enable dev true b))).2)
        = b ++ writeEnableEvents w ++ [BusEvent.cs_low,
            BusEvent.transfer WINBOND_CHIP_ERASE2 e0, BusEvent.cs_high, BusEvent.delay_us 100] :=
    fun b => ⟨_, _, by
      simp only [flash_set_write_enable, flash_cs_low, flash_cs_high,
        sys_ctrl_delay_us, spi1_transfer, writeEnableEvents, if_true,
        List.append_assoc, List.cons_append, List.nil_append]
      rfl⟩
  obtain ⟨w, e0, h⟩ := key ([] ++ pollEvents r0 rxs)
  obtain ⟨r0', rxs', g1, g2, -, -⟩ := wait_to_idle_spec dev
    ([] ++ pollEvents r0 rxs ++ writeEnableEvents w ++ [BusEvent.cs_low,
      BusEvent.transfer WINBOND_CHIP_ERASE2 e0, BusEvent.cs_high, BusEvent.delay_us 100])
  have hfull : (flash_erase_full dev []).2
      = [] ++ pollEvents r0 rxs ++ writeEnableEvents w ++ [BusEvent.cs_low,
          BusEvent.transfer WINBOND_CHIP_ERASE2 e0, BusEvent.cs_high, BusEvent.delay_us 100]
        ++ pollEvents r0' rxs' := by
    rw [← g1, ← h, ← h1]
    rfl
  refine ⟨r0, rxs, w, e0, r0', rxs', ?_, h2, g2⟩
  rw [hfull]
  unfold frames
  rw [observe_pollEvents, List.append_assoc ([] ++ pollEvents r0 rxs), observe_append,
    observe_pollEvents]
  simp [writeEnableEvents, Observed.step, pollFrame, observe]

theorem write_frames (dev : Device) (address : Nat) (pbuf : Nat → Nat) (len : Nat) :
    WriteFrames (frames (flash_write dev address pbuf len []).2) := by
  by_cases hlen : len = 0
  · subst hlen
    obtain ⟨r0, rxs, h1, h2, -, -⟩ := wait_to_idle_spec dev (flash_cs_high [])
    have h : (flash_write dev address pbuf 0 []).2 = flash_cs_high [] ++ pollEvents r0 rxs := h1
    refine ⟨[], r0, rxs, ?_, by simp, h2⟩
    rw [frames, h, observe_pollEvents]
    simp [flash_cs_high, observe, Observed.step, cyclesFrames, pollFrame]
  · obtain ⟨cycles, r0, rxs, h1, -, h3, h4, -, -⟩ := write_events dev address pbuf len [] hlen
    refine ⟨cycles, r0, rxs, ?_, h3, h4⟩
    rw [h1, frames_cycles_poll]
    simp [frames, observe]

/-- C9, as the code has it: each addressed erase returns `FLASH_DRIVER_NG` for
a misaligned address; for an aligned address it ends with a status poll and
returns `FLASH_DRIVER_NG` when that poll used up its 10000 samples with the
device busy in every one (the timeout), and `FLASH_DRIVER_OK` when the poll
stopped on an idle sample before that.  So alignment violation and timeout
share one value, which differs from the success value. -/
theorem erase_result_values (dev : Device) (address : Nat) (bus : Bus) :
    (address % 4096 ≠ 0 → (flash_erase_sector dev address bus).1 = FLASH_DRIVER_NG) ∧
    (address % 4096 = 0 → EndsWithPoll (flash_erase_sector dev address bus)) ∧
    (address % 32768 ≠ 0 → (flash_erase_block_32k dev address bus).1 = FLASH_DRIVER_NG) ∧
    (address % 32768 = 0 → EndsWithPoll (flash_erase_block_32k dev address bus)) ∧
    (address % 65536 ≠ 0 → (flash_erase_block_64k dev address bus).1 = FLASH_DRIVER_NG) ∧
    (address % 65536 = 0 → EndsWithPoll (flash_erase_block_64k dev address bus)) ∧
    FLASH_DRIVER_NG ≠ FLASH_DRIVER_OK := by
  refine ⟨fun h => ?_, fun h => ?_, fun h => ?_, fun h => ?_, fun h => ?_, fun h => ?_, by decide⟩
  · simp [flash_erase_sector, h]
  · rw [erase_sector_aligned dev address bus h]; exact erase_body_ends_with_poll _ _ _ _
  · simp [flash_erase_block_32k, h]
  · rw [erase_block_32k_aligned dev address bus h]; exact erase_body_ends_with_poll _ _ _ _
  · simp [flash_erase_block_64k, h]
  · rw [erase_block_64k_aligned dev address bus h]; exact erase_body_ends_with_poll _ _ _ _

theorem erase_result_values_witness :
    (flash_erase_sector busy_device 0x1001 []).1 = FLASH_DRIVER_NG ∧
    EndsWithPoll (flash_erase_sector busy_device 0x1000 []) ∧
    (flash_erase_block_32k busy_device 0x1000 []).1 = FLASH_DRIVER_NG ∧
    EndsWithPoll (flash_erase_block_32k busy_device 0x8000 []) ∧
    (flash_erase_block_64k busy_device 0x8000 []).1 = FLASH_DRIVER_NG ∧
    EndsWithPoll (flash_erase_block_64k busy_device 0x10000 []) :=
  ⟨(erase_result_values busy_device 0x1001 []).1 (by decide),
   (erase_result_values busy_device 0x1000 []).2.1 (by decide),
   (erase_result_values busy_device 0x1000 []).2.2.1 (by decide),
   (erase_result_values busy_device 0x8000 []).2.2.2.1 (by decide),
   (erase_result_values busy_device 0x8000 []).2.2.2.2.1 (by decide),
   (erase_result_values busy_device 0x10000 []).2.2.2.2.2.1 (by decide)⟩

theorem erase_sector_busy_device :
    flash_erase_sector busy_device 0x1000 []
      = (FLASH_DRIVER_NG,
          [] ++ pollEvents 1 (List.replicate 10000 1) ++ writeEnableEvents 1
            ++ eraseEvents 0x20 0x1000 1 1 1 1 ++ pollEvents 1 (List.replicate 10000 1)) := by
  rw [erase_sector_aligned _ _ _ (by decide)]
  unfold erase_body
  simp only [wait_to_idle_busy_device]
  simp only [flash_set_write_enable, flash_cs_low, flash_cs_high, sys_ctrl_delay_us,
    spi1_transfer, busy_device, writeEnableEvents, eraseEvents, List.append_assoc,
    List.cons_append, List.nil_append, if_true]
  rfl

/-- C9 as stated fails: with a device that stays busy, `flash_erase_sector`
at the aligned address 0x1000 ends in a status poll that uses up all 10000
samples, every one of them busy, and the value it returns for that timeout is
the value returned for the misaligned address 0x1001. -/
theorem erase_timeout_same_as_misaligned :
    0x1001 % 4096 ≠ 0 ∧ 0x1000 % 4096 = 0 ∧
    (frames (flash_erase_sector busy_device 0x1000 []).2).getLast?
      = some (pollFrame 1 (List.replicate 10000 1)) ∧
    ¬ ((flash_erase_sector busy_device 0x1001 []).1
        ≠ (flash_erase_sector busy_device 0x1000 []).1) := by
  refine ⟨by decide, by decide, ?_, ?_⟩
  · rw [erase_sector_busy_device, observe_erase]
    simp only [List.getLast?_append, List.getLast?_cons_cons, List.getLast?_singleton]
    rfl
  · rw [erase_sector_busy_device]
    simp [flash_erase_sector]

/-- C10, as the code has it: whatever the device answers, the transactions of
`flash_write` are page-program cycles followed by the final poll, and those of
an erase are poll, write enable, erase command, final poll (or nothing at all
on a misaligned address).  So a page-program or erase opcode is sent only after
a status poll and a write enable have been completed; that poll has ended
either on an idle sample or by using up its 10000 samples, and its result is
not looked at. -/
theorem commands_follow_completed_poll (dev : Device) (address : Nat) (pbuf : Nat → Nat)
    (len : Nat) :
    WriteFrames (frames (flash_write dev address pbuf len []).2) ∧
    (frames (flash_erase_sector dev address []).2 = [] ∨
      EraseFrames 0x20 address (frames (flash_erase_sector dev address []).2)) ∧
    (frames (flash_erase_block_32k dev address []).2 = [] ∨
      EraseFrames 0x52 address (frames (flash_erase_block_32k dev address []).2)) ∧
    (frames (flash_erase_block_64k dev address []).2 = [] ∨
      EraseFrames 0xD8 address (frames (flash_erase_block_64k dev address []).2)) ∧
    EraseFullFrames (frames (flash_erase_full dev []).2) := by
  refine ⟨write_frames dev address pbuf len, ?_, ?_, ?_, erase_full_frames dev⟩
  · by_cases h : address % 4096 = 0
    · right
      rw [erase_sector_aligned dev address [] h]
      exact erase_body_frames dev _ address (by decide)
    · left
      simp [flash_erase_sector, h, frames, observe]
  · by_cases h : address % 32768 = 0
    · right
      rw [erase_block_32k_aligned dev address [] h]
      exact erase_body_frames dev _ address (by decide)
    · left
      simp [flash_erase_block_32k, h, frames, observe]
  · by_cases h : address % 65536 = 0
    · right
      rw [erase_block_64k_aligned dev address [] h]
      exact erase_body_frames dev _ address (by decide)
    · left
      simp [flash_erase_block_64k, h, frames, observe]

/-- C10 as stated fails: with a device that stays busy, the first status poll
of `flash_erase_sector(0x1000)` returns the timeout result after 10000 busy
samples, and the sector-erase opcode 0x20 is sent all the same. -/
theorem erase_opcode_sent_while_busy :
    (flash_wait_to_idle busy_device []).1 = FLASH_DRIVER_NG ∧
    frames (flash_erase_sector busy_device 0x1000 []).2
      = [pollFrame 1 (List.replicate 10000 1), [(0x06, 1)],
         [(0x20, 1), (0x00, 1), (0x10, 1), (0x00, 1)],
         pollFrame 1 (List.replicate 10000 1)] := by
  refine ⟨by rw [wait_to_idle_busy_device], ?_⟩
  rw [erase_sector_busy_device, observe_erase]
  simp only [frames, observe, List.foldl_nil, List.nil_append]
  rfl

/-! ## Write, then read back, over the simulated medium -/

theorem simulate_append (init : Nat → Nat) (b1 b2 : Bus) :
    simulate init (b1 ++ b2) = b2.foldl Medium.step (simulate init b1) := by
  simp [simulate, List.foldl_append]

theorem medium_samples (rxs : List Nat) : ∀ m : Medium, m.mode = MediumMode.other →
    (sampleEvents rxs).foldl Medium.step m = m := by
  induction rxs with
  | nil => intro m _; rfl
  | cons rx rest ih =>
    intro m hm
    have h1 : (m.step (BusEvent.transfer 0 rx)).step (BusEvent.delay_us 100) = m := by
      simp [Medium.step, hm]
    simp only [sampleEvents, List.foldl_cons, h1]
    exact ih m hm

theorem medium_poll (r0 : Nat) (rxs : List Nat) (m : Medium) :
    (pollEvents r0 rxs).foldl Medium.step m = ⟨m.mem, MediumMode.deselected⟩ := by
  have h := medium_samples rxs ⟨m.mem, MediumMode.other⟩ rfl
  simp [pollEvents, List.foldl_append, Medium.step, h]

theorem medium_write_enable (w : Nat) (m : Medium) :
    (writeEnableEvents w).foldl Medium.step m = ⟨m.mem, MediumMode.deselected⟩ := by
  simp [writeEnableEvents, Medium.step]

theorem header_decode_acc (A : Nat) :
    (((A >>> 16) &&& 0xff) * 256 + ((A >>> 8) &&& 0xff)) * 256 + (A &&& 0xff) = A % 2 ^ 24 := by
  simp only [← mod_256_eq_and, Nat.shiftRight_eq_div_pow]
  omega

theorem medium_header (A e0 e1 e2 e3 : Nat) (m : Medium) :
    (programHeaderEvents A e0 e1 e2 e3).foldl Medium.step m
      = ⟨m.mem, MediumMode.program (A % 2 ^ 24)⟩ := by
  simp only [programHeaderEvents, List.foldl_cons, List.foldl_nil, Medium.step]
  simp [header_decode_acc]

theorem medium_payload (l : List (Nat × Nat)) : ∀ (mem : Nat → Nat) (a : Nat),
    (transferEvents l).foldl Medium.step ⟨mem, MediumMode.program a⟩
      = ⟨writeBytes mem a (txs l), MediumMode.program (a + l.length)⟩ := by
  induction l with
  | nil => intro mem a; simp [transferEvents, writeBytes, txs]
  | cons x rest ih =>
    intro mem a
    have := ih (Function.update mem a x.1) (a + 1)
    simp only [transferEvents, txs] at this ⊢
    simp only [List.map_cons, List.foldl_cons, Medium.step, writeBytes, this, List.length_cons]
    congr 2
    omega

theorem medium_cycle (c : ProgramCycle) (m : Medium) :
    c.events.foldl Medium.step m
      = ⟨writeBytes m.mem (c.address % 2 ^ 24) (txs c.payload), MediumMode.deselected⟩ := by
  simp only [ProgramCycle.events, List.foldl_append, medium_poll, medium_write_enable,
    medium_header, medium_payload]
  simp [Medium.step]

theorem medium_cycles (cycles : List ProgramCycle) : ∀ mem : Nat → Nat,
    (cyclesEvents cycles).foldl Medium.step ⟨mem, MediumMode.deselected⟩
      = ⟨applyCmds mem (cycles.map ProgramCycle.command), MediumMode.deselected⟩ := by
  induction cycles with
  | nil => intro mem; simp [cyclesEvents, applyCmds]
  | cons c cs ih =>
    intro mem
    simp only [cyclesEvents, List.foldl_append, medium_cycle, ih, List.map_cons, applyCmds,
      ProgramCycle.command]

/-- The medium after a whole write holds the payload of every page-program
command at its header address, and is deselected. -/
theorem simulate_write (init : Nat → Nat) (dev : Device) (address : Nat) (pbuf : Nat → Nat)
    (len : Nat) :
    simulate init (flash_write dev address pbuf len []).2
      = ⟨applyCmds init (page_cmds pbuf len address 0 none), MediumMode.deselected⟩ := by
  by_cases hlen : len = 0
  · subst hlen
    obtain ⟨r0, rxs, h1, -⟩ := wait_to_idle_spec dev (flash_cs_high [])
    have h : (flash_write dev address pbuf 0 []).2 = flash_cs_high [] ++ pollEvents r0 rxs := h1
    rw [h, simulate_append, medium_poll]
    simp [simulate, flash_cs_high, Medium.step, page_cmds, applyCmds]
  · obtain ⟨cycles, r0, rxs, h1, h2, -⟩ := write_events dev address pbuf len [] hlen
    rw [h1, simulate_append, simulate_append, medium_poll]
    have h3 : simulate init [] = ⟨init, MediumMode.deselected⟩ := rfl
    rw [h3, medium_cycles, h2]

theorem writeBytes_untouched : ∀ (l : List Nat) (mem : Nat → Nat) (a x : Nat), x < a →
    writeBytes mem a l x = mem x := by
  intro l
  induction l with
  | nil => intro mem a x _; rfl
  | cons b bs ih =>
    intro mem a x hx
    rw [writeBytes, ih _ _ _ (by omega)]
    exact Function.update_noteq (by omega) _ _

theorem writeBytes_append : ∀ (l1 l2 : List Nat) (mem : Nat → Nat) (a : Nat),
    writeBytes mem a (l1 ++ l2) = writeBytes (writeBytes mem a l1) (a + l1.length) l2 := by
  intro l1
  induction l1 with
  | nil => intro l2 mem a; simp [writeBytes]
  | cons b bs ih =>
    intro l2 mem a
    have e : a + (bs.length + 1) = a + 1 + bs.length := by omega
    rw [List.cons_append, writeBytes, writeBytes, ih, List.length_cons, e]

theorem bytes_from_append (pbuf : Nat → Nat) : ∀ (k m idx : Nat), idx < 2 ^ 32 →
    bytes_from pbuf idx (k + m)
      = bytes_from pbuf idx k ++ bytes_from pbuf ((idx + k) % 2 ^ 32) m := by
  intro k
  induction k with
  | zero =>
    intro m idx h
    rw [Nat.add_zero, Nat.mod_eq_of_lt h, Nat.zero_add]
    simp [bytes_from]
  | succ k ih =>
    intro m idx h
    have e : k + 1 + m = (k + m) + 1 := by omega
    rw [e, bytes_from, bytes_from, ih m _ (Nat.mod_lt _ (by decide))]
    have e2 : ((idx + 1) % 2 ^ 32 + k) % 2 ^ 32 = (idx + (k + 1)) % 2 ^ 32 := by omega
    rw [e2]
    rfl

theorem writeBytes_bytes_from (pbuf : Nat → Nat) : ∀ (k : Nat) (mem : Nat → Nat)
    (a idx j : Nat), j < k → idx + k ≤ 2 ^ 32 →
    writeBytes mem a (bytes_from pbuf idx k) (a + j) = pbuf (idx + j) % 256 := by
  intro k
  induction k with
  | zero => intro mem a idx j hj; omega
  | succ k ih =>
    intro mem a idx j hj hidx
    rw [bytes_from, writeBytes]
    cases j with
    | zero =>
      rw [Nat.add_zero, Nat.add_zero, writeBytes_untouched _ _ _ _ (by omega)]
      exact Function.update_same _ _ _
    | succ j =>
      have h1 : (idx + 1) % 2 ^ 32 = idx + 1 := Nat.mod_eq_of_lt (by omega)
      have e1 : a + (j + 1) = a + 1 + j := by omega
      have e2 : idx + (j + 1) = idx + 1 + j := by omega
      rw [h1, e1, e2]
      exact ih _ _ _ _ (by omega) (by omega)

/-- A write that does not run past the end of the 24-bit address space leaves
on the medium what one contiguous store of the buffer would. -/
theorem applyCmds_page_cmds (pbuf : Nat → Nat) : ∀ (n len : Nat), len ≤ n →
    ∀ (mem : Nat → Nat) (address idx : Nat), idx < 2 ^ 32 →
    address % 2 ^ 24 + len ≤ 2 ^ 24 →
    applyCmds mem (page_cmds pbuf len address idx none)
      = writeBytes mem (address % 2 ^ 24) (bytes_from pbuf idx len) := by
  intro n
  induction n with
  | zero =>
    intro len hlen mem address idx _ _
    have : len = 0 := by omega
    subst this
    simp [page_cmds, applyCmds, bytes_from, writeBytes]
  | succ n ih =>
    intro len hlen mem address idx hidx hfit
    by_cases h0 : len = 0
    · subst h0; simp [page_cmds, applyCmds, bytes_from, writeBytes]
    · have hpos := chunk_len_pos address len h0
      have hle := chunk_len_le address len
      rw [page_cmds_chunk pbuf len address idx h0, applyCmds]
      by_cases hz : len - chunk_len address len = 0
      · have hk : chunk_len address len = len := by omega
        rw [hz, hk]
        simp [page_cmds, applyCmds]
      · have hadr : (address + chunk_len address len) % 2 ^ 32 % 2 ^ 24
            = address % 2 ^ 24 + chunk_len address len := by omega
        rw [ih (len - chunk_len address len) (by omega) _ _ _ (Nat.mod_lt _ (by decide))
          (by omega), hadr]
        have hsplit : len = chunk_len address len + (len - chunk_len address len) := by omega
        conv_rhs => rw [hsplit, bytes_from_append pbuf _ _ idx hidx, writeBytes_append,
          bytes_from_length]

theorem flash_read_eq (fuel : Nat) (dev : Device) (address : Nat) (pbuf : Nat → Nat)
    (len : Nat) (bus : Bus) :
    flash_read fuel dev address pbuf len bus
      = match flash_read_loop dev len fuel 0 pbuf
          (read_header dev address (flash_wait_to_idle dev bus).2) with
        | none => none
        | some (pbuf, bus) => some (FLASH_DRIVER_OK, pbuf, flash_cs_high bus) := rfl

/-- With `len ≥ 65536` the 16-bit index never reaches `len`: the read loop
does not return, whatever the fuel. -/
theorem read_loop_never_returns (dev : Device) (len : Nat) (hlen : 65536 ≤ len) :
    ∀ (fuel i : Nat) (pbuf : Nat → Nat) (bus : Bus), i < 65536 →
    flash_read_loop dev len fuel i pbuf bus = none := by
  intro fuel
  induction fuel with
  | zero => intro i pbuf bus _; rfl
  | succ fuel ih =>
    intro i pbuf bus hi
    rw [flash_read_loop, if_pos (by omega)]
    exact ih _ _ _ (Nat.mod_lt _ (by decide))

theorem flash_read_never_returns (fuel : Nat) (dev : Device) (address : Nat)
    (pbuf : Nat → Nat) (len : Nat) (bus : Bus) (hlen : 65536 ≤ len) :
    flash_read fuel dev address pbuf len bus = none := by
  rw [flash_read_eq, read_loop_never_returns dev len hlen fuel 0 pbuf _ (by decide)]

theorem simulate_transfer (init : Nat → Nat) (dev : Device) (tx : Nat) (bus : Bus) :
    simulate init (spi1_transfer dev tx bus).2
      = (simulate init bus).step (BusEvent.transfer (tx % 256) (dev bus (tx % 256) % 256)) := by
  simp [spi1_transfer, simulate, List.foldl_append]

theorem simulate_cs_low (init : Nat → Nat) (bus : Bus) :
    simulate init (flash_cs_low bus) = ⟨(simulate init bus).mem, MediumMode.opcode⟩ := by
  simp [flash_cs_low, simulate, List.foldl_append, Medium.step]

theorem simulate_read_header (init : Nat → Nat) (dev : Device) (address : Nat) (bus : Bus) :
    simulate init (read_header dev address bus)
      = ⟨(simulate init bus).mem, MediumMode.read (address % 2 ^ 24)⟩ := by
  have h1 : simulate init (spi1_transfer dev WINBOND_READ (flash_cs_low bus)).2
      = ⟨(simulate init bus).mem, MediumMode.addr 3 0 0⟩ := by
    simp [simulate_transfer, simulate_cs_low, Medium.step, WINBOND_READ, WINBOND_PAGE_PGM]
  simp only [read_header, simulate_transfer, h1, Medium.step, Nat.shiftRight_eq_div_pow]
  simp [WINBOND_PAGE_PGM]
  omega

/-- The read loop over the medium, entered at index `i` with the medium's read
position at `a`: it returns, having stored in the buffer the bytes the medium
holds from `a` on, and leaves the rest of the buffer as it was. -/
theorem read_loop_medium (init : Nat → Nat) (L : Nat) (hL : L < 65536) (M : Nat → Nat) :
    ∀ (n i a : Nat) (buf : Nat → Nat) (bus : Bus), i + n = L →
    simulate init bus = ⟨M, MediumMode.read a⟩ →
    ∃ buf' bus', flash_read_loop (medium init) L (n + 1) i buf bus = some (buf', bus') ∧
      (∀ j, i ≤ j → j < L → buf' j = M (a + (j - i)) % 256) ∧
      (∀ j, (j < i ∨ L ≤ j) → buf' j = buf j) := by
  intro n
  induction n with
  | zero =>
    intro i a buf bus hi _
    refine ⟨buf, bus, ?_, ?_, ?_⟩
    · have : ¬ i < L := by omega
      simp [flash_read_loop, this]
    · intro j h1 h2; omega
    · intro j _; rfl
  | succ n ih =>
    intro i a buf bus hi hsim
    have hlt : i < L := by omega
    have hrx : (spi1_transfer (medium init) 0 bus).1 = M a % 256 := by
      simp [spi1_transfer, medium, hsim, Medium.answer]
    have hsim' : simulate init (spi1_transfer (medium init) 0 bus).2
        = ⟨M, MediumMode.read (a + 1)⟩ := by
      rw [simulate_transfer, hsim]
      simp [Medium.step]
    have hi1 : (i + 1) % 65536 = i + 1 := Nat.mod_eq_of_lt (by omega)
    obtain ⟨buf', bus', h1, h2, h3⟩ := ih (i + 1) (a + 1)
      (Function.update buf i (M a % 256)) (spi1_transfer (medium init) 0 bus).2 (by omega) hsim'
    refine ⟨buf', bus', ?_, ?_, ?_⟩
    · rw [flash_read_loop, if_pos hlt]
      simp only [hrx, hi1]
      exact h1
    · intro j hj1 hj2
      by_cases hj : j = i
      · subst hj
        rw [h3 j (Or.inl (by omega)), Nat.sub_self, Nat.add_zero]
        exact Function.update_same _ _ _
      · rw [h2 j (by omega) hj2]
        congr 2
        omega
    · intro j hj
      rw [h3 j (by omega)]
      exact Function.update_noteq (by omega) _ _

theorem write_then_read (init : Nat → Nat) (address : Nat) (pbuf buf0 : Nat → Nat)
    (len : Nat) (hlen : len < 65536) (hfit : address % 2 ^ 24 + len ≤ 2 ^ 24)
    (hbuf : ∀ i, i < len → pbuf i < 256) :
    ∃ buf bus', flash_read (len + 1) (medium init) address buf0 len
        (flash_write (medium init) address pbuf len []).2 = some (FLASH_DRIVER_OK, buf, bus') ∧
      (∀ i, i < len → buf i = pbuf i) ∧ (∀ i, len ≤ i → buf i = buf0 i) := by
  have hw := simulate_write init (medium init) address pbuf len
  rw [applyCmds_page_cmds pbuf len len (Nat.le_refl _) init address 0 (by decide) hfit] at hw
  obtain ⟨r0, rxs, hp, -⟩ := wait_to_idle_spec (medium init)
    (flash_write (medium init) address pbuf len []).2
  have hs : simulate init (read_header (medium init) address
      (flash_wait_to_idle (medium init) (flash_write (medium init) address pbuf len []).2).2)
      = ⟨writeBytes init (address % 2 ^ 24) (bytes_from pbuf 0 len),
          MediumMode.read (address % 2 ^ 24)⟩ := by
    rw [simulate_read_header, hp, simulate_append, medium_poll, hw]
  obtain ⟨buf', bus', h1, h2, h3⟩ := read_loop_medium init len hlen _ len 0 _ buf0 _
    (by omega) hs
  refine ⟨buf', flash_cs_high bus', ?_, ?_, ?_⟩
  · rw [flash_read_eq, h1]
  · intro i hi
    rw [h2 i (by omega) hi, Nat.sub_zero, writeBytes_bytes_from pbuf len _ _ 0 i hi (by omega),
      Nat.zero_add, Nat.mod_mod]
    exact Nat.mod_eq_of_lt (hbuf i hi)
  · intro i hi
    exact h3 i (Or.inr hi)

/-- C3, as the code and a 24-bit header have it: for every address and every
`len < 65536` such that the write does not run past the end of the 24-bit
address space, over the simulated medium, `flash_write(A, bytes, len)`
followed by `flash_read(A, buf, len)` returns and leaves the first `len` bytes
of `buf` equal to `bytes` and the rest of `buf` untouched. -/
theorem write_read_round_trip (init : Nat → Nat) (address : Nat) (pbuf buf0 : Nat → Nat)
    (len : Nat) (hlen : len < 65536) (hfit : address % 2 ^ 24 + len ≤ 2 ^ 24)
    (hbuf : ∀ i, i < len → pbuf i < 256) :
    ∃ buf bus', flash_read (len + 1) (medium init) address buf0 len
        (flash_write (medium init) address pbuf len []).2 = some (FLASH_DRIVER_OK, buf, bus') ∧
      (∀ i, i < len → buf i = pbuf i) ∧ (∀ i, len ≤ i → buf i = buf0 i) :=
  write_then_read init address pbuf buf0 len hlen hfit hbuf

theorem write_read_round_trip_witness :
    ∃ buf bus', flash_read (300 + 1) (medium fun _ => 0xFF) 0x12FF (fun _ => 0) 300
        (flash_write (medium fun _ => 0xFF) 0x12FF (fun i => i % 256) 300 []).2
          = some (FLASH_DRIVER_OK, buf, bus') ∧
      (∀ i, i < 300 → buf i = (fun i => i % 256) i) ∧ (∀ i, 300 ≤ i → buf i = (fun _ => 0) i) :=
  write_read_round_trip (fun _ => 0xFF) 0x12FF (fun i => i % 256) (fun _ => 0) 300
    (by decide) (by decide) (fun i _ => Nat.mod_lt i (by decide))

/-- C3 as stated fails: writing the two bytes 1, 2 at address 0xFFFFFF and
reading two bytes back from 0xFFFFFF returns, with the first byte 1 and the
second byte 0, not 2: the second byte was programmed at header address
0x000000. -/
theorem round_trip_fails_at_end_of_address_space :
    (flash_read 3 (medium fun _ => 0) 0xFFFFFF (fun _ => 0) 2
        (flash_write (medium fun _ => 0) 0xFFFFFF (fun i => i + 1) 2 []).2).map
      (fun r => (r.1, r.2.1 0, r.2.1 1)) = some (FLASH_DRIVER_OK, 1, 0) ∧
    programCommands (flash_write (medium fun _ => 0) 0xFFFFFF (fun i => i + 1) 2 []).2
      = [(0xFFFFFF, [1]), (0x000000, [2])] := by
  constructor
  · decide
  · decide

/-! ## Read -/

theorem read_header_events (dev : Device) (address : Nat) (bus : Bus) :
    ∃ e0 e1 e2 e3, read_header dev address bus
      = bus ++ readHeaderEvents address e0 e1 e2 e3 :=
  ⟨_, _, _, _, by
    simp only [read_header, flash_cs_low, spi1_transfer, readHeaderEvents,
      List.append_assoc, List.cons_append, List.nil_append, ← mod_256_eq_and]
    rfl⟩

/-- The read loop with enough fuel, for `len < 65536`: it returns after one
filler exchange per remaining byte, each answer stored at its index, the rest
of the buffer as it was. -/
theorem read_loop_events (dev : Device) (len : Nat) (hlen : len < 65536) :
    ∀ (n i : Nat) (buf : Nat → Nat) (bus : Bus), i + n = len →
    ∃ rs buf', flash_read_loop dev len (n + 1) i buf bus = some (buf', bus ++ fillerEvents rs) ∧
      rs.length = n ∧
      (∀ j, i ≤ j → j < len → buf' j = rs.getD (j - i) 0) ∧
      (∀ j, (j < i ∨ len ≤ j) → buf' j = buf j) := by
  intro n
  induction n with
  | zero =>
    intro i buf bus hi
    refine ⟨[], buf, ?_, rfl, ?_, ?_⟩
    · have : ¬ i < len := by omega
      simp [flash_read_loop, this, fillerEvents]
    · intro j h1 h2; omega
    · intro j _; rfl
  | succ n ih =>
    intro i buf bus hi
    have hlt : i < len := by omega
    have hi1 : (i + 1) % 65536 = i + 1 := Nat.mod_eq_of_lt (by omega)
    obtain ⟨rs, buf', h1, h2, h3, h4⟩ := ih (i + 1)
      (Function.update buf i (dev bus 0 % 256))
      (bus ++ [BusEvent.transfer 0 (dev bus 0 % 256)]) (by omega)
    refine ⟨dev bus 0 % 256 :: rs, buf', ?_, by simp [h2], ?_, ?_⟩
    · rw [flash_read_loop, if_pos hlt]
      simp only [spi1_transfer, hi1, Nat.zero_mod]
      rw [h1]
      simp [fillerEvents]
    · intro j hj1 hj2
      by_cases hj : j = i
      · subst hj
        rw [h4 j (Or.inl (by omega)), Nat.sub_self]
        simp
      · rw [h3 j (by omega) hj2]
        have e : j - i = (j - (i + 1)) + 1 := by omega
        rw [e]
        simp
    · intro j hj
      rw [h4 j (by omega)]
      exact Function.update_noteq (by omega) _ _

/-- The whole of `flash_read` for `len < 65536`, on the bus. -/
theorem read_events (dev : Device) (address : Nat) (buf0 : Nat → Nat) (len : Nat) (bus : Bus)
    (hlen : len < 65536) :
    ∃ r0 rxs e0 e1 e2 e3 rs buf,
      flash_read (len + 1) dev address buf0 len bus
        = some (FLASH_DRIVER_OK, buf,
            bus ++ pollEvents r0 rxs ++ readHeaderEvents address e0 e1 e2 e3
              ++ fillerEvents rs ++ [BusEvent.cs_high]) ∧
      (flash_wait_to_idle dev bus).2 = bus ++ pollEvents r0 rxs ∧
      PollSamples rxs ∧
      rs.length = len ∧
      (∀ i, i < len → buf i = rs.getD i 0) ∧
      (∀ i, len ≤ i → buf i = buf0 i) := by
  obtain ⟨r0, rxs, h1, h2, -, -⟩ := wait_to_idle_spec dev bus
  obtain ⟨e0, e1, e2, e3, h3⟩ := read_header_events dev address (bus ++ pollEvents r0 rxs)
  obtain ⟨rs, buf, g1, g2, g3, g4⟩ := read_loop_events dev len hlen len 0 buf0
    (bus ++ pollEvents r0 rxs ++ readHeaderEvents address e0 e1 e2 e3) (by omega)
  refine ⟨r0, rxs, e0, e1, e2, e3, rs, buf, ?_, h1, h2, g2, ?_, ?_⟩
  · rw [flash_read_eq, h1, h3, g1]
    rfl
  · intro i hi
    have := g3 i (by omega) hi
    simpa using this
  · intro i hi
    exact g4 i (Or.inr hi)

/-- C11, at the first length that does not fit the 16-bit index: asked for
65536 bytes, `flash_read` does not return, whatever the fuel, the device, the
address and the buffer. -/
theorem flash_read_65536_never_returns (fuel : Nat) (dev : Device) (address : Nat)
    (pbuf : Nat → Nat) (bus : Bus) :
    flash_read fuel dev address pbuf 65536 bus = none :=
  flash_read_never_returns fuel dev address pbuf 65536 bus (by decide)

theorem fillerEvents_eq (rs : List Nat) :
    fillerEvents rs = transferEvents (rs.map fun rx => (0, rx)) := by
  simp [fillerEvents, transferEvents, List.map_map, Function.comp_def]

theorem frames_read (bus : Bus) (r0 : Nat) (rxs : List Nat) (address e0 e1 e2 e3 : Nat)
    (rs : List Nat) :
    frames (bus ++ pollEvents r0 rxs ++ readHeaderEvents address e0 e1 e2 e3
        ++ fillerEvents rs ++ [BusEvent.cs_high])
      = frames bus ++ [pollFrame r0 rxs, readFrame address e0 e1 e2 e3 rs] := by
  have h1 := observe_pollEvents bus r0 rxs
  have h2 : observe (bus ++ pollEvents r0 rxs ++ readHeaderEvents address e0 e1 e2 e3)
      = ⟨(observe bus).done ++ [pollFrame r0 rxs],
          some [(WINBOND_READ, e0), ((address >>> 16) &&& 0xff, e1),
            ((address >>> 8) &&& 0xff, e2), (address &&& 0xff, e3)]⟩ := by
    rw [observe_append, h1]
    simp [readHeaderEvents, Observed.step, pollFrame]
  have h3 := observe_transferEvents (rs.map fun rx => (0, rx)) _ _ _ h2
  rw [← fillerEvents_eq] at h3
  unfold frames
  rw [observe_snoc, h3]
  simp [Observed.step, readFrame]

/-- C12: for every address and every `len < 65536`, whatever the device
answers, `flash_read` returns `FLASH_DRIVER_OK` after a status poll and exactly
one more transaction: opcode 0x03, address bits 23..16, 15..8, 7..0, then `len`
filler bytes 0x00.  The byte stored at index `i < len` is the byte returned for
the i-th filler exchange.  The poll and the read command are the only
transactions: no write enable is sent. -/
theorem read_single_transaction (dev : Device) (address : Nat) (buf0 : Nat → Nat) (len : Nat)
    (bus : Bus) (hlen : len < 65536) :
    ∃ r0 rxs e0 e1 e2 e3 rs buf,
      flash_read (len + 1) dev address buf0 len bus
        = some (FLASH_DRIVER_OK, buf,
            bus ++ pollEvents r0 rxs ++ readHeaderEvents address e0 e1 e2 e3
              ++ fillerEvents rs ++ [BusEvent.cs_high]) ∧
      (flash_wait_to_idle dev bus).2 = bus ++ pollEvents r0 rxs ∧
      rs.length = len ∧
      (∀ i, i < len → buf i = rs.getD i 0) ∧
      frames (bus ++ pollEvents r0 rxs ++ readHeaderEvents address e0 e1 e2 e3
          ++ fillerEvents rs ++ [BusEvent.cs_high])
        = frames bus ++ [pollFrame r0 rxs, readFrame address e0 e1 e2 e3 rs] := by
  obtain ⟨r0, rxs, e0, e1, e2, e3, rs, buf, h1, h2, -, h4, h5, -⟩ :=
    read_events dev address buf0 len bus hlen
  exact ⟨r0, rxs, e0, e1, e2, e3, rs, buf, h1, h2, h4, h5, frames_read _ _ _ _ _ _ _ _ _⟩

theorem read_single_transaction_witness :
    ∃ r0 rxs e0 e1 e2 e3 rs buf,
      flash_read (2 + 1) busy_device 0x123456 (fun _ => 0) 2 []
        = some (FLASH_DRIVER_OK, buf,
            [] ++ pollEvents r0 rxs ++ readHeaderEvents 0x123456 e0 e1 e2 e3
              ++ fillerEvents rs ++ [BusEvent.cs_high]) ∧
      (flash_wait_to_idle busy_device []).2 = [] ++ pollEvents r0 rxs ∧
      rs.length = 2 ∧
      (∀ i, i < 2 → (buf i = rs.getD i 0)) ∧
      frames ([] ++ pollEvents r0 rxs ++ readHeaderEvents 0x123456 e0 e1 e2 e3
          ++ fillerEvents rs ++ [BusEvent.cs_high])
        = frames [] ++ [pollFrame r0 rxs, readFrame 0x123456 e0 e1 e2 e3 rs] :=
  read_single_transaction busy_device 0x123456 (fun _ => 0) 2 [] (by decide)

/-! ## One command per page -/

theorem page_cmds_length (pbuf : Nat → Nat) : ∀ (n len : Nat), len ≤ n →
    ∀ (address idx : Nat),
    (page_cmds pbuf len address idx none).length
      = if len = 0 then 0 else (address % 256 + len - 1) / 256 + 1 := by
  intro n
  induction n with
  | zero =>
    intro len hlen address idx
    have : len = 0 := by omega
    subst this
    simp [page_cmds]
  | succ n ih =>
    intro len hlen address idx
    by_cases h0 : len = 0
    · subst h0; simp [page_cmds]
    · have hpos := chunk_len_pos address len h0
      have hle := chunk_len_le address len
      rw [page_cmds_chunk pbuf len address idx h0, List.length_cons,
        ih (len - chunk_len address len) (by omega), if_neg h0]
      by_cases hz : len - chunk_len address len = 0
      · rw [if_pos hz]
        omega
      · rw [if_neg hz]
        have hk : chunk_len address len = 256 - address % 256 := by
          unfold chunk_len at hz ⊢; omega
        have ha : (address + chunk_len address len) % 2 ^ 32 % 256 = 0 := by omega
        rw [ha]
        omega

/-- C14: for every start address and every `len ≥ 1`, whatever the device
answers, the number of page-program commands of `flash_write` is
`(A + len - 1) / 256 - A / 256 + 1`, one per page touched. -/
theorem write_one_command_per_page (dev : Device) (address : Nat) (pbuf : Nat → Nat)
    (len : Nat) (hlen : 1 ≤ len) :
    (programCommands (flash_write dev address pbuf len []).2).length
      = (address + len - 1) / 256 - address / 256 + 1 := by
  rw [write_programCommands_all, page_cmds_length pbuf len len (Nat.le_refl _) address 0,
    if_neg (by omega)]
  omega

theorem write_one_command_per_page_witness :
    (programCommands (flash_write idle_device 0xFFFFFFFF (fun i => i) 258 []).2).length
      = (0xFFFFFFFF + 258 - 1) / 256 - 0xFFFFFFFF / 256 + 1 :=
  write_one_command_per_page idle_device 0xFFFFFFFF (fun i => i) 258 (by decide)

/-! ## Addresses beyond 24 bits -/

theorem spi1_transfer_congr (dev : Device) (tx tx' : Nat) (bus : Bus)
    (h : tx % 256 = tx' % 256) : spi1_transfer dev tx bus = spi1_transfer dev tx' bus := by
  simp only [spi1_transfer, h]

theorem address_bytes_alias (A : Nat) :
    (A >>> 16) % 256 = ((A % 2 ^ 24) >>> 16) % 256 ∧
    (A >>> 8) % 256 = ((A % 2 ^ 24) >>> 8) % 256 ∧
    A % 256 = (A % 2 ^ 24) % 256 := by
  simp only [Nat.shiftRight_eq_div_pow]
  omega

theorem open_page_program_alias (dev : Device) (a a' : Nat) (bus : Bus)
    (h : a % 2 ^ 24 = a' % 2 ^ 24) :
    open_page_program dev a bus = open_page_program dev a' bus := by
  have h16 : (a >>> 16) &&& 0xff = (a' >>> 16) &&& 0xff := by
    simp only [← mod_256_eq_and, Nat.shiftRight_eq_div_pow]; omega
  have h8 : (a >>> 8) &&& 0xff = (a' >>> 8) &&& 0xff := by
    simp only [← mod_256_eq_and, Nat.shiftRight_eq_div_pow]; omega
  have h0 : (a >>> 0) &&& 0xff = (a' >>> 0) &&& 0xff := by
    simp only [← mod_256_eq_and, Nat.shiftRight_eq_div_pow]; omega
  simp only [open_page_program, h16, h8, h0]

theorem write_loop_alias (dev : Device) (pbuf : Nat → Nat) :
    ∀ (len a a' idx : Nat) (flag : Bool) (bus : Bus), a % 2 ^ 24 = a' % 2 ^ 24 →
    flash_write_loop dev pbuf len a idx flag bus
      = flash_write_loop dev pbuf len a' idx flag bus := by
  intro len
  induction len with
  | zero => intro a a' idx flag bus _; simp [flash_write_loop]
  | succ len ih =>
    have hF : ∀ (a a' idx : Nat) (bus : Bus), a % 2 ^ 24 = a' % 2 ^ 24 →
        flash_write_loop dev pbuf (len + 1) a idx false bus
          = flash_write_loop dev pbuf (len + 1) a' idx false bus := by
      intro a a' idx bus h
      have hb : ((a + 1) % 2 ^ 32 % 256 = 0) ↔ ((a' + 1) % 2 ^ 32 % 256 = 0) := by omega
      have hn : (a + 1) % 2 ^ 32 % 2 ^ 24 = (a' + 1) % 2 ^ 32 % 2 ^ 24 := by omega
      rw [write_loop_false, write_loop_false]
      by_cases hc : (a + 1) % 2 ^ 32 % 256 = 0
      · rw [if_pos hc, if_pos (hb.1 hc)]
        exact ih _ _ _ _ _ hn
      · rw [if_neg hc, if_neg (fun h' => hc (hb.2 h'))]
        exact ih _ _ _ _ _ hn
    intro a a' idx flag bus h
    cases flag with
    | false => exact hF a a' idx bus h
    | true =>
      rw [write_loop_true, write_loop_true, open_page_program_alias dev a a' bus h]
      exact hF a a' idx _ h

theorem erase_body_alias (dev : Device) (opcode A : Nat) (bus : Bus) :
    erase_body dev opcode A bus = erase_body dev opcode (A % 2 ^ 24) bus := by
  obtain ⟨h16, h8, h0⟩ := address_bytes_alias A
  simp only [erase_body, spi1_transfer_congr dev _ _ _ h16, spi1_transfer_congr dev _ _ _ h8,
    spi1_transfer_congr dev A (A % 2 ^ 24) _ h0]

theorem read_header_alias (dev : Device) (A : Nat) (bus : Bus) :
    read_header dev A bus = read_header dev (A % 2 ^ 24) bus := by
  obtain ⟨h16, h8, h0⟩ := address_bytes_alias A
  simp only [read_header, spi1_transfer_congr dev _ _ _ h16, spi1_transfer_congr dev _ _ _ h8,
    spi1_transfer_congr dev A (A % 2 ^ 24) _ h0]

theorem erase_sector_ng (dev : Device) (A : Nat) (bus : Bus) (h : A % 4096 ≠ 0) :
    flash_erase_sector dev A bus = (FLASH_DRIVER_NG, bus) := by
  simp [flash_erase_sector, h]

theorem erase_block_32k_ng (dev : Device) (A : Nat) (bus : Bus) (h : A % 32768 ≠ 0) :
    flash_erase_block_32k dev A bus = (FLASH_DRIVER_NG, bus) := by
  simp [flash_erase_block_32k, h]

theorem erase_block_64k_ng (dev : Device) (A : Nat) (bus : Bus) (h : A % 65536 ≠ 0) :
    flash_erase_block_64k dev A bus = (FLASH_DRIVER_NG, bus) := by
  simp [flash_erase_block_64k, h]

/-- C18: addresses are not checked against the 24-bit range; they alias.  For
every address, device, buffer and length, `flash_write`, the three addressed
erases (alignment decision included) and `flash_read` (with any fuel, so for
every length) do on `A` exactly what they do on `A mod 2^24`: same result, same
bus trace, same buffer. -/
theorem address_aliases_mod_2_24 (dev : Device) (A : Nat) (pbuf : Nat → Nat) (len fuel : Nat)
    (bus : Bus) :
    flash_write dev A pbuf len bus = flash_write dev (A % 2 ^ 24) pbuf len bus ∧
    flash_erase_sector dev A bus = flash_erase_sector dev (A % 2 ^ 24) bus ∧
    flash_erase_block_32k dev A bus = flash_erase_block_32k dev (A % 2 ^ 24) bus ∧
    flash_erase_block_64k dev A bus = flash_erase_block_64k dev (A % 2 ^ 24) bus ∧
    flash_read fuel dev A pbuf len bus = flash_read fuel dev (A % 2 ^ 24) pbuf len bus := by
  refine ⟨?_, ?_, ?_, ?_, ?_⟩
  · simp only [flash_write]
    rw [write_loop_alias dev pbuf len A (A % 2 ^ 24) 0 true bus (by omega)]
  · by_cases h : A % 4096 = 0
    · rw [erase_sector_aligned dev A bus h, erase_sector_aligned dev _ bus (by omega)]
      exact erase_body_alias dev _ A bus
    · rw [erase_sector_ng dev A bus h, erase_sector_ng dev _ bus (by omega)]
  · by_cases h : A % 32768 = 0
    · rw [erase_block_32k_aligned dev A bus h, erase_block_32k_aligned dev _ bus (by omega)]
      exact erase_body_alias dev _ A bus
    · rw [erase_block_32k_ng dev A bus h, erase_block_32k_ng dev _ bus (by omega)]
  · by_cases h : A % 65536 = 0
    · rw [erase_block_64k_aligned dev A bus h, erase_block_64k_aligned dev _ bus (by omega)]
      exact erase_body_alias dev _ A bus
    · rw [erase_block_64k_ng dev A bus h, erase_block_64k_ng dev _ bus (by omega)]
  · rw [flash_read_eq, flash_read_eq, read_header_alias]

/-! ## The empty write -/

theorem sentBytes_sampleEvents (rxs : List Nat) :
    sentBytes (sampleEvents rxs) = List.replicate rxs.length 0 := by
  induction rxs with
  | nil => rfl
  | cons rx rest ih =>
    have : sentBytes (sampleEvents (rx :: rest)) = 0 :: sentBytes (sampleEvents rest) := by
      simp [sentBytes, sampleEvents]
    rw [this, ih]
    rfl

theorem sentBytes_pollEvents (r0 : Nat) (rxs : List Nat) :
    sentBytes (pollEvents r0 rxs)
      = WINBOND_READ_STATUS_REG_1 :: List.replicate rxs.length 0 := by
  have h := sentBytes_sampleEvents rxs
  simp only [sentBytes] at h ⊢
  simp only [pollEvents, List.filterMap_append, h]
  simp

/-- C20: for every address, device and buffer, `flash_write` with `len = 0`
is a deselect followed by one status poll, whose outcome it returns.  The only
bytes sent are the status-read opcode and the filler bytes of the samples: no
write enable, no page program.  The buffer is not looked at. -/
theorem write_zero_length (dev : Device) (address : Nat) (pbuf : Nat → Nat) (bus : Bus) :
    flash_write dev address pbuf 0 bus = flash_wait_to_idle dev (bus ++ [BusEvent.cs_high]) ∧
    (∃ r0 rxs, (flash_write dev address pbuf 0 bus).2
        = bus ++ [BusEvent.cs_high] ++ pollEvents r0 rxs ∧
      PollSamples rxs ∧
      sentBytes ([BusEvent.cs_high] ++ pollEvents r0 rxs)
        = WINBOND_READ_STATUS_REG_1 :: List.replicate rxs.length 0) ∧
    programCommands (flash_write dev address pbuf 0 []).2 = [] ∧
    (∀ pbuf', flash_write dev address pbuf' 0 bus = flash_write dev address pbuf 0 bus) := by
  refine ⟨rfl, ?_, write_programCommands_zero dev address pbuf, fun _ => rfl⟩
  obtain ⟨r0, rxs, h1, h2, -, -⟩ := wait_to_idle_spec dev (bus ++ [BusEvent.cs_high])
  refine ⟨r0, rxs, h1, h2, ?_⟩
  have h := sentBytes_pollEvents r0 rxs
  simp only [sentBytes] at h ⊢
  simp only [List.filterMap_append, h]
  simp

/-! ## The status poll against any sequence of status bytes -/

theorem wait_loop_step_odd (dev : Device) (c : Nat) (bus : Bus) (h : dev bus 0 % 256 % 2 = 1) :
    flash_wait_to_idle_loop dev (c + 1 + 1) bus
      = flash_wait_to_idle_loop dev (c + 1)
          (bus ++ [BusEvent.transfer 0 (dev bus 0 % 256), BusEvent.delay_us 100]) := by
  rw [flash_wait_to_idle_loop]
  simp [spi1_transfer, sys_ctrl_delay_us, and_one_ne_zero, h]

theorem wait_loop_step_even (dev : Device) (c : Nat) (bus : Bus) (h : dev bus 0 % 256 % 2 = 0) :
    flash_wait_to_idle_loop dev (c + 1) bus
      = (c, bus ++ [BusEvent.transfer 0 (dev bus 0 % 256), BusEvent.delay_us 100]) := by
  rw [flash_wait_to_idle_loop]
  have : ¬ dev bus 0 % 256 % 2 = 1 := by omega
  simp [spi1_transfer, sys_ctrl_delay_us, and_one_ne_zero, this]

theorem wait_loop_step_last (dev : Device) (bus : Bus) :
    flash_wait_to_idle_loop dev 1 bus
      = (0, bus ++ [BusEvent.transfer 0 (dev bus 0 % 256), BusEvent.delay_us 100]) := by
  rw [flash_wait_to_idle_loop]
  simp [spi1_transfer, sys_ctrl_delay_us]

theorem sampleRxs_pollEvents (bus : Bus) (r0 : Nat) (rxs : List Nat) :
    sampleRxs (bus ++ pollEvents r0 rxs) = sampleRxs bus ++ rxs := by
  have h : ∀ l : List Nat, sampleRxs (sampleEvents l) = l := by
    intro l
    induction l with
    | nil => rfl
    | cons rx rest ih =>
      have : sampleRxs (sampleEvents (rx :: rest)) = rx :: sampleRxs (sampleEvents rest) := by
        simp [sampleRxs, sampleEvents]
      rw [this, ih]
  have h2 := h rxs
  simp only [sampleRxs] at h2 ⊢
  simp only [pollEvents, List.filterMap_append, h2]
  simp [WINBOND_READ_STATUS_REG_1]

/-- The poll loop against a sequence of status bytes, entered with counter
`c + 1` when `i` samples were taken already and the next `n` status bytes are
busy: if byte `i + n` is idle and `n ≤ c`, it stops on that byte after `n + 1`
samples; if `c < n`, it takes `c + 1` samples and the counter is zero. -/
theorem wait_loop_status_source (s : Nat → Nat) : ∀ (c n i : Nat) (bus : Bus),
    (sampleRxs bus).length = i → (∀ k, k < n → s (i + k) % 2 = 1) →
    (n ≤ c → s (i + n) % 2 = 0 →
      flash_wait_to_idle_loop (status_source s) (c + 1) bus
        = (c - n, bus ++ sampleEvents ((List.range' i (n + 1)).map fun k => s k % 256))) ∧
    (c < n →
      flash_wait_to_idle_loop (status_source s) (c + 1) bus
        = (0, bus ++ sampleEvents ((List.range' i (c + 1)).map fun k => s k % 256))) := by
  intro c
  induction c with
  | zero =>
    intro n i bus hi hbusy
    have hrx : status_source s bus 0 % 256 = s i % 256 := by simp [status_source, hi]
    constructor
    · intro hn _
      have : n = 0 := by omega
      subst this
      rw [wait_loop_step_last, hrx]
      simp [sampleEvents]
    · intro _
      rw [wait_loop_step_last, hrx]
      simp [sampleEvents]
  | succ c ih =>
    intro n i bus hi hbusy
    have hrx : status_source s bus 0 % 256 = s i % 256 := by simp [status_source, hi]
    cases n with
    | zero =>
      constructor
      · intro _ hidle
        have he : status_source s bus 0 % 256 % 2 = 0 := by
          rw [hrx]; simp at hidle; omega
        rw [wait_loop_step_even _ _ _ he, hrx]
        simp [sampleEvents]
      · intro h; omega
    | succ n =>
      have hb0 := hbusy 0 (by omega)
      have ho : status_source s bus 0 % 256 % 2 = 1 := by
        rw [hrx]; simp at hb0; omega
      have hi' : (sampleRxs (bus ++ [BusEvent.transfer 0 (s i % 256),
          BusEvent.delay_us 100])).length = i + 1 := by
        rw [sampleRxs_sample]; simp [hi]
      have hbusy' : ∀ k, k < n → s (i + 1 + k) % 2 = 1 := by
        intro k hk
        have := hbusy (k + 1) (by omega)
        have e : i + (k + 1) = i + 1 + k := by omega
        rwa [e] at this
      obtain ⟨i1, i2⟩ := ih n (i + 1) _ hi' hbusy'
      rw [wait_loop_step_odd _ _ _ ho, hrx]
      constructor
      · intro hn hidle
        have e : i + (n + 1) = i + 1 + n := by omega
        rw [e] at hidle
        rw [i1 (by omega) hidle, List.range'_succ i (n + 1)]
        simp [sampleEvents]
      · intro hn
        rw [i2 (by omega), List.range'_succ i (c + 1)]
        simp [sampleEvents]

theorem pollStart_samples (dev : Device) (bus : Bus) :
    sampleRxs (pollStart dev bus) = sampleRxs bus := by
  rw [pollStart_eq]
  simp [sampleRxs, List.filterMap_append]

/-- The samples of one poll against a sequence of status bytes whose first
`n` bytes are busy and whose byte `n` is idle unless `n ≥ 10000`: the first
`min (n + 1) 10000` bytes of the sequence. -/
theorem wait_to_idle_status_source (s : Nat → Nat) (n : Nat)
    (hbusy : ∀ k, k < n → s k % 2 = 1) (hidle : n < 10000 → s n % 2 = 0) :
    sampleRxs (flash_wait_to_idle (status_source s) []).2
      = (List.range (min (n + 1) 10000)).map fun k => s k % 256 := by
  have hi : (sampleRxs (pollStart (status_source s) [])).length = 0 := by
    rw [pollStart_samples]; rfl
  have hb : ∀ k, k < n → s (0 + k) % 2 = 1 := by
    intro k hk; rw [Nat.zero_add]; exact hbusy k hk
  obtain ⟨i1, i2⟩ := wait_loop_status_source s 9999 n 0 _ hi hb
  simp only [Nat.reduceAdd, Nat.zero_add] at i1 i2
  have h2 := wait_to_idle_snd (status_source s) []
  by_cases hn : n < 10000
  · rw [i1 (by omega) (hidle hn)] at h2
    rw [h2, pollStart_eq]
    have hm : min (n + 1) 10000 = n + 1 := by omega
    rw [hm, List.range_eq_range']
    have := sampleRxs_pollEvents [] (status_source s ([] ++ [BusEvent.cs_low,
      BusEvent.delay_us 100]) 5 % 256) ((List.range' 0 (n + 1)).map fun k => s k % 256)
    simpa [pollEvents, List.append_assoc] using this
  · rw [i2 (by omega)] at h2
    rw [h2, pollStart_eq]
    have hm : min (n + 1) 10000 = 10000 := by omega
    rw [hm, List.range_eq_range']
    have := sampleRxs_pollEvents [] (status_source s ([] ++ [BusEvent.cs_low,
      BusEvent.delay_us 100]) 5 % 256) ((List.range' 0 10000).map fun k => s k % 256)
    simp only [pollEvents, List.append_assoc, List.nil_append, sampleRxs] at this ⊢
    exact this

/-- C17: for every device and every bus, `flash_wait_to_idle` returns, having
sent the status-read opcode 0x05 once and then only filler bytes, one per
sample; it takes at least one sample and at most 10000, every sample before
the last one is busy, and the last one is idle unless all 10000 were taken.
Against a sequence of status bytes whose first idle byte has index `n` (or
whose first 10000 bytes are all busy, `n ≥ 10000`), the samples taken are the
first `min (n + 1) 10000` bytes of the sequence. -/
theorem wait_to_idle_sample_count (dev : Device) (bus : Bus) (s : Nat → Nat) (n : Nat) :
    (∃ r0 rxs, (flash_wait_to_idle dev bus).2 = bus ++ pollEvents r0 rxs ∧
      PollSamples rxs ∧
      sentBytes (pollEvents r0 rxs)
        = WINBOND_READ_STATUS_REG_1 :: List.replicate rxs.length 0) ∧
    ((∀ k, k < n → s k % 2 = 1) → (n < 10000 → s n % 2 = 0) →
      sampleRxs (flash_wait_to_idle (status_source s) []).2
        = (List.range (min (n + 1) 10000)).map fun k => s k % 256) := by
  constructor
  · obtain ⟨r0, rxs, h1, h2, -, -⟩ := wait_to_idle_spec dev bus
    exact ⟨r0, rxs, h1, h2, sentBytes_pollEvents r0 rxs⟩
  · exact wait_to_idle_status_source s n

theorem wait_to_idle_sample_count_witness :
    sampleRxs (flash_wait_to_idle (status_source fun i => if i < 3 then 0x03 else 0x02) []).2
      = (List.range (min (3 + 1) 10000)).map
          fun k => (fun i => if i < 3 then 0x03 else 0x02) k % 256 :=
  (wait_to_idle_sample_count idle_device [] (fun i => if i < 3 then 0x03 else 0x02) 3).2
    (fun k hk => by simp [hk]) (fun _ => by decide)

/-! ## Timeouts of the polls that are not the last -/

theorem wait_loop_until_deselect : ∀ (c : Nat) (bus : Bus), BusEvent.cs_high ∉ bus →
    flash_wait_to_idle_loop busy_until_deselect (c + 1) bus
      = (0, bus ++ sampleEvents (List.replicate (c + 1) 1)) := by
  intro c
  induction c with
  | zero =>
    intro bus h
    rw [wait_loop_last_busy _ _ (by simp [busy_until_deselect, h])]
    simp [sampleEvents]
  | succ c ih =>
    intro bus h
    rw [wait_loop_step_busy _ _ _ (by simp [busy_until_deselect, h]),
      ih _ (by simp [h])]
    simp [sampleEvents, List.replicate_succ]

theorem wait_to_idle_first_poll :
    flash_wait_to_idle busy_until_deselect []
      = (FLASH_DRIVER_NG, pollEvents 1 (List.replicate 10000 1)) := by
  have hs : pollStart busy_until_deselect []
      = [BusEvent.cs_low, BusEvent.delay_us 100, BusEvent.transfer 5 1] := by
    rw [pollStart_eq]; simp [busy_until_deselect]
  have h := wait_loop_until_deselect 9999 (pollStart busy_until_deselect [])
    (by rw [hs]; simp)
  simp only [Nat.reduceAdd] at h
  apply Prod.ext
  · rw [wait_to_idle_fst, h]; simp
  · rw [wait_to_idle_snd, h, hs]
    rfl

theorem wait_to_idle_after_deselect (bus : Bus) (h : BusEvent.cs_high ∈ bus) :
    flash_wait_to_idle busy_until_deselect bus = (FLASH_DRIVER_OK, bus ++ pollEvents 0 [0]) := by
  have hs : pollStart busy_until_deselect bus
      = bus ++ [BusEvent.cs_low, BusEvent.delay_us 100, BusEvent.transfer 5 0] := by
    rw [pollStart_eq]; simp [busy_until_deselect, h]
  have hl : flash_wait_to_idle_loop busy_until_deselect 10000 (pollStart busy_until_deselect bus)
      = (9999, pollStart busy_until_deselect bus
          ++ [BusEvent.transfer 0 0, BusEvent.delay_us 100]) :=
    wait_loop_step_idle _ 9999 _ (by rw [hs]; simp [busy_until_deselect, h])
  apply Prod.ext
  · rw [wait_to_idle_fst, hl]; simp
  · rw [wait_to_idle_snd, hl, hs]
    simp [pollEvents, sampleEvents]

theorem erase_fixed_after_deselect (opcode address : Nat) (b : Bus)
    (h : BusEvent.cs_high ∈ b) (hop : opcode < 256) :
    sys_ctrl_delay_us 100 (flash_cs_high (spi1_transfer busy_until_deselect address
      (spi1_transfer busy_until_deselect (address >>> 8)
        (spi1_transfer busy_until_deselect (address >>> 16)
          (spi1_transfer busy_until_deselect opcode
            (flash_cs_low (flash_set_write_enable busy_until_deselect true b))).2).2).2).2)
      = b ++ writeEnableEvents 0 ++ eraseEvents opcode address 0 0 0 0 := by
  simp [flash_set_write_enable, flash_cs_low, flash_cs_high, sys_ctrl_delay_us, spi1_transfer,
    writeEnableEvents, eraseEvents, busy_until_deselect, h, ← mod_256_eq_and,
    Nat.mod_eq_of_lt hop, WINBOND_W_EN]

theorem erase_sector_first_poll_times_out :
    flash_erase_sector busy_until_deselect 0x1000 []
      = (FLASH_DRIVER_OK,
          pollEvents 1 (List.replicate 10000 1) ++ writeEnableEvents 0
            ++ eraseEvents 0x20 0x1000 0 0 0 0 ++ pollEvents 0 [0]) := by
  have hm : BusEvent.cs_high ∈ pollEvents 1 (List.replicate 10000 1) :=
    List.mem_append_right _ (List.mem_singleton_self _)
  have hfix := erase_fixed_after_deselect 0x20 0x1000 _ hm (by decide)
  have hm2 : BusEvent.cs_high ∈ pollEvents 1 (List.replicate 10000 1) ++ writeEnableEvents 0
      ++ eraseEvents 0x20 0x1000 0 0 0 0 :=
    List.mem_append_left _ (List.mem_append_left _ hm)
  rw [erase_sector_aligned _ _ _ (by decide)]
  unfold erase_body
  simp only [wait_to_idle_first_poll]
  rw [hfix, wait_to_idle_after_deselect _ hm2]

theorem write_ends_with_poll (dev : Device) (address : Nat) (pbuf : Nat → Nat) (len : Nat)
    (bus : Bus) : EndsWithPoll (flash_write dev address pbuf len bus) := by
  obtain ⟨r0, rxs, h1, h2, h3, h4⟩ := wait_to_idle_spec dev
    (flash_cs_high (flash_write_loop dev pbuf len address 0 true bus))
  exact ⟨_, r0, rxs, h1, h2, fun h => h3.2 h, fun h _ => h4.2 h⟩

theorem erase_full_ends_with_poll (dev : Device) (bus : Bus) :
    EndsWithPoll (flash_erase_full dev bus) := by
  obtain ⟨r0, rxs, h1, h2, h3, h4⟩ := wait_to_idle_spec dev
    (sys_ctrl_delay_us 100 (flash_cs_high (spi1_transfer dev WINBOND_CHIP_ERASE2
      (flash_cs_low (flash_set_write_enable dev true (flash_wait_to_idle dev bus).2))).2))
  exact ⟨_, r0, rxs, h1, h2, fun h => h3.2 h, fun h _ => h4.2 h⟩

/-- C13, as the code has it: whatever the device answers, `flash_write`, the
addressed erases on aligned addresses and `flash_erase_full` end with a status
poll.  If that final poll uses up its 10000 samples with the device busy in
every one, the operation returns `FLASH_DRIVER_NG`, which is not
`FLASH_DRIVER_OK`.  If the final poll stops on an idle sample before that, the
operation returns `FLASH_DRIVER_OK`, whatever the polls before it did: their
outcome does not enter the result. -/
theorem result_is_that_of_final_poll (dev : Device) (address : Nat) (pbuf : Nat → Nat)
    (len : Nat) (bus : Bus) :
    EndsWithPoll (flash_write dev address pbuf len bus) ∧
    (address % 4096 = 0 → EndsWithPoll (flash_erase_sector dev address bus)) ∧
    (address % 32768 = 0 → EndsWithPoll (flash_erase_block_32k dev address bus)) ∧
    (address % 65536 = 0 → EndsWithPoll (flash_erase_block_64k dev address bus)) ∧
    EndsWithPoll (flash_erase_full dev bus) ∧
    FLASH_DRIVER_NG ≠ FLASH_DRIVER_OK := by
  refine ⟨write_ends_with_poll dev address pbuf len bus, fun h => ?_, fun h => ?_, fun h => ?_,
    erase_full_ends_with_poll dev bus, by decide⟩
  · rw [erase_sector_aligned dev address bus h]; exact erase_body_ends_with_poll _ _ _ _
  · rw [erase_block_32k_aligned dev address bus h]; exact erase_body_ends_with_poll _ _ _ _
  · rw [erase_block_64k_aligned dev address bus h]; exact erase_body_ends_with_poll _ _ _ _

theorem result_is_that_of_final_poll_witness :
    EndsWithPoll (flash_erase_sector busy_until_deselect 0x1000 []) ∧
    EndsWithPoll (flash_erase_block_32k busy_until_deselect 0x8000 []) ∧
    EndsWithPoll (flash_erase_block_64k busy_until_deselect 0x10000 []) :=
  ⟨(result_is_that_of_final_poll busy_until_deselect 0x1000 (fun _ => 0) 0 []).2.1 (by decide),
   (result_is_that_of_final_poll busy_until_deselect 0x8000 (fun _ => 0) 0 []).2.2.1 (by decide),
   (result_is_that_of_final_poll busy_until_deselect 0x10000 (fun _ => 0) 0 []).2.2.2.1
     (by decide)⟩

/-- C13 as stated fails: with a device that is busy during the first
transaction only, the first status wait of `flash_erase_sector(0x1000)` uses up
its 10000 samples, all busy, and returns the timeout result; the erase command
is sent, the final wait sees the device idle, and the operation returns
`FLASH_DRIVER_OK`. -/
theorem early_timeout_not_reported :
    (flash_wait_to_idle busy_until_deselect []).1 = FLASH_DRIVER_NG ∧
    flash_erase_sector busy_until_deselect 0x1000 []
      = (FLASH_DRIVER_OK,
          pollEvents 1 (List.replicate 10000 1) ++ writeEnableEvents 0
            ++ eraseEvents 0x20 0x1000 0 0 0 0 ++ pollEvents 0 [0]) :=
  ⟨by rw [wait_to_idle_first_poll], erase_sector_first_poll_times_out⟩

/-! ## One cycle per page-program command -/

theorem opcodeCount_append (op : Nat) (F G : List (List (Nat × Nat))) :
    opcodeCount op (F ++ G) = opcodeCount op F + opcodeCount op G := by
  simp [opcodeCount, List.countP_append]

theorem opcodeCount_cycle (c : ProgramCycle) :
    opcodeCount WINBOND_READ_STATUS_REG_1 c.frames = 1 ∧
    opcodeCount WINBOND_W_EN c.frames = 1 ∧
    opcodeCount WINBOND_PAGE_PGM c.frames = 1 := by
  simp [opcodeCount, ProgramCycle.frames, pollFrame, txs, List.countP_cons,
    WINBOND_READ_STATUS_REG_1, WINBOND_W_EN, WINBOND_PAGE_PGM]

theorem opcodeCount_pollFrame (r0 : Nat) (rxs : List Nat) :
    opcodeCount WINBOND_READ_STATUS_REG_1 [pollFrame r0 rxs] = 1 ∧
    opcodeCount WINBOND_W_EN [pollFrame r0 rxs] = 0 ∧
    opcodeCount WINBOND_PAGE_PGM [pollFrame r0 rxs] = 0 := by
  simp [opcodeCount, pollFrame, txs, List.countP_cons,
    WINBOND_READ_STATUS_REG_1, WINBOND_W_EN, WINBOND_PAGE_PGM]

theorem opcodeCount_cyclesFrames (cycles : List ProgramCycle) :
    opcodeCount WINBOND_READ_STATUS_REG_1 (cyclesFrames cycles) = cycles.length ∧
    opcodeCount WINBOND_W_EN (cyclesFrames cycles) = cycles.length ∧
    opcodeCount WINBOND_PAGE_PGM (cyclesFrames cycles) = cycles.length := by
  induction cycles with
  | nil => simp [cyclesFrames, opcodeCount]
  | cons c cs ih =>
    obtain ⟨i1, i2, i3⟩ := ih
    obtain ⟨c1, c2, c3⟩ := opcodeCount_cycle c
    simp only [cyclesFrames, opcodeCount_append, i1, i2, i3, c1, c2, c3, List.length_cons]
    omega

/-- C15: whatever the device answers, the transactions of `flash_write` are
cycles of three, a status poll, a write enable of the single byte 0x06 and a
page-program command (opcode 0x02, three address bytes, payload), followed by
the final status poll.  The page-program commands are those of the cycles, so
the polls before the final one, the write enables and the page-program
commands are equally many. -/
theorem write_cycle_per_command (dev : Device) (address : Nat) (pbuf : Nat → Nat) (len : Nat) :
    ∃ cycles r0 rxs,
      frames (flash_write dev address pbuf len []).2
        = cyclesFrames cycles ++ [pollFrame r0 rxs] ∧
      programCommands (flash_write dev address pbuf len []).2
        = cycles.map ProgramCycle.command ∧
      opcodeCount WINBOND_READ_STATUS_REG_1 (frames (flash_write dev address pbuf len []).2)
        = cycles.length + 1 ∧
      opcodeCount WINBOND_W_EN (frames (flash_write dev address pbuf len []).2)
        = cycles.length ∧
      opcodeCount WINBOND_PAGE_PGM (frames (flash_write dev address pbuf len []).2)
        = cycles.length ∧
      (programCommands (flash_write dev address pbuf len []).2).length = cycles.length := by
  obtain ⟨cycles, r0, rxs, h1, -, -⟩ := write_frames dev address pbuf len
  obtain ⟨c1, c2, c3⟩ := opcodeCount_cyclesFrames cycles
  have hp : programCommands (flash_write dev address pbuf len []).2
      = cycles.map ProgramCycle.command := by
    rw [programCommands, h1, List.filterMap_append, filterMap_cyclesFrames]
    simp [pageProgram_pollFrame]
  obtain ⟨p1, p2, p3⟩ := opcodeCount_pollFrame r0 rxs
  refine ⟨cycles, r0, rxs, h1, hp, ?_, ?_, ?_, by rw [hp]; simp⟩
  · rw [h1, opcodeCount_append, c1, p1]
  · rw [h1, opcodeCount_append, c2, p2]; rfl
  · rw [h1, opcodeCount_append, c3, p3]; rfl

/-! ## The poll as first and last bus action -/

theorem open_page_program_fixed (dev : Device) (address : Nat) (b : Bus) :
    ∃ w e0 e1 e2 e3,
      (spi1_transfer dev ((address >>> 0) &&& 0xff)
        (spi1_transfer dev ((address >>> 8) &&& 0xff)
          (spi1_transfer dev ((address >>> 16) &&& 0xff)
            (spi1_transfer dev WINBOND_PAGE_PGM
              (flash_cs_low (flash_set_write_enable dev true b))).2).2).2).2
        = b ++ writeEnableEvents w ++ programHeaderEvents address e0 e1 e2 e3 :=
  ⟨_, _, _, _, _, by
    simp only [flash_set_write_enable, flash_cs_low, flash_cs_high,
      sys_ctrl_delay_us, spi1_transfer, writeEnableEvents, programHeaderEvents, if_true,
      List.append_assoc, List.cons_append, List.nil_append, and_ff_mod,
      Nat.shiftRight_zero]
    rfl⟩

theorem erase_full_fixed (dev : Device) (b : Bus) :
    ∃ w e0,
      sys_ctrl_delay_us 100 (flash_cs_high (spi1_transfer dev WINBOND_CHIP_ERASE2
        (flash_cs_low (flash_set_write_enable dev true b))).2)
        = b ++ writeEnableEvents w ++ [BusEvent.cs_low,
            BusEvent.transfer WINBOND_CHIP_ERASE2 e0, BusEvent.cs_high, BusEvent.delay_us 100] :=
  ⟨_, _, by
    simp only [flash_set_write_enable, flash_cs_low, flash_cs_high,
      sys_ctrl_delay_us, spi1_transfer, writeEnableEvents, if_true,
      List.append_assoc, List.cons_append, List.nil_append]
    rfl⟩

/-- The whole of `flash_erase_full` on the bus. -/
theorem erase_full_events (dev : Device) (bus : Bus) :
    ∃ r0 rxs w e0,
      (flash_wait_to_idle dev bus).2 = bus ++ pollEvents r0 rxs ∧
      PollSamples rxs ∧
      flash_erase_full dev bus
        = flash_wait_to_idle dev (bus ++ pollEvents r0 rxs ++ writeEnableEvents w
            ++ [BusEvent.cs_low, BusEvent.transfer WINBOND_CHIP_ERASE2 e0, BusEvent.cs_high,
                BusEvent.delay_us 100]) := by
  obtain ⟨r0, rxs, h1, h2, -, -⟩ := wait_to_idle_spec dev bus
  obtain ⟨w, e0, h⟩ := erase_full_fixed dev (bus ++ pollEvents r0 rxs)
  refine ⟨r0, rxs, w, e0, h1, h2, ?_⟩
  rw [← h, ← h1]
  rfl

/-- The read loop only appends filler exchanges, whatever the fuel. -/
theorem read_loop_extends (dev : Device) (len : Nat) : ∀ (fuel i : Nat) (buf : Nat → Nat)
    (bus : Bus) (buf' : Nat → Nat) (bus' : Bus),
    flash_read_loop dev len fuel i buf bus = some (buf', bus') →
    ∃ rs, bus' = bus ++ fillerEvents rs := by
  intro fuel
  induction fuel with
  | zero => intro i buf bus buf' bus' h; simp [flash_read_loop] at h
  | succ fuel ih =>
    intro i buf bus buf' bus' h
    rw [flash_read_loop] at h
    by_cases hlt : i < len
    · rw [if_pos hlt] at h
      obtain ⟨rs, hrs⟩ := ih _ _ _ _ _ h
      refine ⟨dev bus 0 % 256 :: rs, ?_⟩
      rw [hrs]
      simp [spi1_transfer, fillerEvents]
    · rw [if_neg hlt] at h
      refine ⟨[], ?_⟩
      simp only [Option.some.injEq, Prod.mk.injEq] at h
      simp [fillerEvents, h.2]

/-- Every run of `flash_read` that returns, on the bus. -/
theorem read_events_of_return (fuel : Nat) (dev : Device) (address : Nat) (buf0 : Nat → Nat)
    (len : Nat) (bus : Bus) (r : FlashResult) (buf : Nat → Nat) (bus' : Bus)
    (h : flash_read fuel dev address buf0 len bus = some (r, buf, bus')) :
    ∃ r0 rxs e0 e1 e2 e3 rs,
      (flash_wait_to_idle dev bus).2 = bus ++ pollEvents r0 rxs ∧
      PollSamples rxs ∧
      bus' = bus ++ pollEvents r0 rxs ++ readHeaderEvents address e0 e1 e2 e3
        ++ fillerEvents rs ++ [BusEvent.cs_high] := by
  obtain ⟨r0, rxs, h1, h2, -, -⟩ := wait_to_idle_spec dev bus
  obtain ⟨e0, e1, e2, e3, h3⟩ := read_header_events dev address (bus ++ pollEvents r0 rxs)
  rw [flash_read_eq, h1, h3] at h
  cases hl : flash_read_loop dev len fuel 0 buf0
      (bus ++ pollEvents r0 rxs ++ readHeaderEvents address e0 e1 e2 e3) with
  | none => rw [hl] at h; simp at h
  | some out =>
    obtain ⟨bufL, busL⟩ := out
    rw [hl] at h
    obtain ⟨rs, hrs⟩ := read_loop_extends dev len fuel 0 buf0 _ bufL busL hl
    refine ⟨r0, rxs, e0, e1, e2, e3, rs, h1, h2, ?_⟩
    simp only [Option.some.injEq, Prod.mk.injEq] at h
    rw [← h.2.2, hrs]
    rfl

theorem write_starts_with_poll (dev : Device) (address : Nat) (pbuf : Nat → Nat) (len : Nat)
    (bus : Bus) (hlen : len ≠ 0) :
    StartsWithPoll dev bus (flash_write dev address pbuf len bus).2 := by
  obtain ⟨n, rfl⟩ := Nat.exists_eq_succ_of_ne_zero hlen
  obtain ⟨w, e0, e1, e2, e3, hfix⟩ :=
    open_page_program_fixed dev address (flash_wait_to_idle dev bus).2
  have hopen : open_page_program dev address bus
      = (flash_wait_to_idle dev bus).2 ++ writeEnableEvents w
          ++ programHeaderEvents address e0 e1 e2 e3 := by
    rw [← hfix]; rfl
  obtain ⟨rest, cycles, h1, -, -⟩ :=
    (write_loop_cycles dev pbuf (n + 1) address 0 (open_page_program dev address bus)).1
  obtain ⟨r0, rxs, g1, -⟩ := wait_to_idle_spec dev
    (flash_cs_high (flash_write_loop dev pbuf (n + 1) address 0 true bus))
  have hw : (flash_write dev address pbuf (n + 1) bus).2
      = flash_cs_high (flash_write_loop dev pbuf (n + 1) address 0 true bus)
          ++ pollEvents r0 rxs := g1
  rw [write_loop_true, h1, hopen] at hw
  refine ⟨writeEnableEvents w ++ programHeaderEvents address e0 e1 e2 e3
    ++ transferEvents rest ++ [BusEvent.cs_high] ++ cyclesEvents cycles ++ pollEvents r0 rxs, ?_⟩
  rw [hw]
  simp only [List.append_assoc]

theorem write_finishes_with_poll (dev : Device) (address : Nat) (pbuf : Nat → Nat) (len : Nat)
    (bus : Bus) : FinishesWithPoll dev bus (flash_write dev address pbuf len bus) := by
  by_cases hlen : len = 0
  · subst hlen
    exact ⟨[BusEvent.cs_high], rfl⟩
  · obtain ⟨cycles, h1, -, -⟩ := (write_loop_cycles dev pbuf len address 0 bus).2 hlen
    refine ⟨cyclesEvents cycles, ?_⟩
    rw [← h1]
    rfl

theorem erase_body_starts_with_poll (dev : Device) (opcode address : Nat) (bus : Bus)
    (hop : opcode < 256) :
    StartsWithPoll dev bus (erase_body dev opcode address bus).2 ∧
    FinishesWithPoll dev bus (erase_body dev opcode address bus) := by
  obtain ⟨r0, rxs, w, e0, e1, e2, e3, -, h2, h3⟩ := erase_body_sequence dev opcode address bus hop
  obtain ⟨r0', rxs', g1, -⟩ := wait_to_idle_spec dev
    (bus ++ pollEvents r0 rxs ++ writeEnableEvents w ++ eraseEvents opcode address e0 e1 e2 e3)
  constructor
  · refine ⟨writeEnableEvents w ++ eraseEvents opcode address e0 e1 e2 e3
      ++ pollEvents r0' rxs', ?_⟩
    rw [h3, g1, h2]
    simp only [List.append_assoc]
  · refine ⟨pollEvents r0 rxs ++ writeEnableEvents w ++ eraseEvents opcode address e0 e1 e2 e3, ?_⟩
    rw [h3]
    simp only [List.append_assoc]

theorem erase_full_starts_with_poll (dev : Device) (bus : Bus) :
    StartsWithPoll dev bus (flash_erase_full dev bus).2 ∧
    FinishesWithPoll dev bus (flash_erase_full dev bus) := by
  obtain ⟨r0, rxs, w, e0, h1, -, h3⟩ := erase_full_events dev bus
  obtain ⟨r0', rxs', g1, -⟩ := wait_to_idle_spec dev
    (bus ++ pollEvents r0 rxs ++ writeEnableEvents w
      ++ [BusEvent.cs_low, BusEvent.transfer WINBOND_CHIP_ERASE2 e0, BusEvent.cs_high,
          BusEvent.delay_us 100])
  constructor
  · refine ⟨writeEnableEvents w ++ [BusEvent.cs_low, BusEvent.transfer WINBOND_CHIP_ERASE2 e0,
      BusEvent.cs_high, BusEvent.delay_us 100] ++ pollEvents r0' rxs', ?_⟩
    rw [h3, g1, h1]
    simp only [List.append_assoc]
  · refine ⟨pollEvents r0 rxs ++ writeEnableEvents w ++ [BusEvent.cs_low,
      BusEvent.transfer WINBOND_CHIP_ERASE2 e0, BusEvent.cs_high, BusEvent.delay_us 100], ?_⟩
    rw [h3]
    simp only [List.append_assoc]

theorem read_starts_with_poll (fuel : Nat) (dev : Device) (address : Nat) (buf0 : Nat → Nat)
    (len : Nat) (bus : Bus) (r : FlashResult) (buf : Nat → Nat) (bus' : Bus)
    (h : flash_read fuel dev address buf0 len bus = some (r, buf, bus')) :
    StartsWithPoll dev bus bus' := by
  obtain ⟨r0, rxs, e0, e1, e2, e3, rs, h1, -, h3⟩ :=
    read_events_of_return fuel dev address buf0 len bus r buf bus' h
  refine ⟨readHeaderEvents address e0 e1 e2 e3 ++ fillerEvents rs ++ [BusEvent.cs_high], ?_⟩
  rw [h3, h1]
  simp only [List.append_assoc]

/-- C16, as the code has it: whatever the device answers, the status poll is
the first bus action of every run of `flash_read` that returns, of
`flash_write` with a nonzero length, of the addressed erases on aligned
addresses and of `flash_erase_full`; `flash_write` with length zero deasserts
select and then polls.  The status poll is the last bus action, and its
outcome the result, of `flash_write` for every length, of the addressed erases
on aligned addresses and of `flash_erase_full`. -/
theorem poll_first_and_last (dev : Device) (address : Nat) (pbuf : Nat → Nat) (len fuel : Nat)
    (bus : Bus) :
    (∀ r buf bus', flash_read fuel dev address pbuf len bus = some (r, buf, bus') →
      StartsWithPoll dev bus bus') ∧
    (len ≠ 0 → StartsWithPoll dev bus (flash_write dev address pbuf len bus).2) ∧
    flash_write dev address pbuf 0 bus = flash_wait_to_idle dev (bus ++ [BusEvent.cs_high]) ∧
    (address % 4096 = 0 → StartsWithPoll dev bus (flash_erase_sector dev address bus).2) ∧
    (address % 32768 = 0 → StartsWithPoll dev bus (flash_erase_block_32k dev address bus).2) ∧
    (address % 65536 = 0 → StartsWithPoll dev bus (flash_erase_block_64k dev address bus).2) ∧
    StartsWithPoll dev bus (flash_erase_full dev bus).2 ∧
    FinishesWithPoll dev bus (flash_write dev address pbuf len bus) ∧
    (address % 4096 = 0 → FinishesWithPoll dev bus (flash_erase_sector dev address bus)) ∧
    (address % 32768 = 0 → FinishesWithPoll dev bus (flash_erase_block_32k dev address bus)) ∧
    (address % 65536 = 0 → FinishesWithPoll dev bus (flash_erase_block_64k dev address bus)) ∧
    FinishesWithPoll dev bus (flash_erase_full dev bus) := by
  refine ⟨fun r buf bus' h => read_starts_with_poll fuel dev address pbuf len bus r buf bus' h,
    fun h => write_starts_with_poll dev address pbuf len bus h, rfl,
    fun h => ?_, fun h => ?_, fun h => ?_, (erase_full_starts_with_poll dev bus).1,
    write_finishes_with_poll dev address pbuf len bus,
    fun h => ?_, fun h => ?_, fun h => ?_, (erase_full_starts_with_poll dev bus).2⟩
  · rw [erase_sector_aligned dev address bus h]
    exact (erase_body_starts_with_poll dev _ address bus (by decide)).1
  · rw [erase_block_32k_aligned dev address bus h]
    exact (erase_body_starts_with_poll dev _ address bus (by decide)).1
  · rw [erase_block_64k_aligned dev address bus h]
    exact (erase_body_starts_with_poll dev _ address bus (by decide)).1
  · rw [erase_sector_aligned dev address bus h]
    exact (erase_body_starts_with_poll dev _ address bus (by decide)).2
  · rw [erase_block_32k_aligned dev address bus h]
    exact (erase_body_starts_with_poll dev _ address bus (by decide)).2
  · rw [erase_block_64k_aligned dev address bus h]
    exact (erase_body_starts_with_poll dev _ address bus (by decide)).2

theorem poll_first_and_last_witness :
    (∃ buf bus', flash_read 3 idle_device 0x10000 (fun _ => 0) 2 []
        = some (FLASH_DRIVER_OK, buf, bus') ∧ StartsWithPoll idle_device [] bus') ∧
    StartsWithPoll idle_device [] (flash_write idle_device 0x10000 (fun _ => 0) 2 []).2 ∧
    StartsWithPoll idle_device [] (flash_erase_sector idle_device 0x10000 []).2 ∧
    StartsWithPoll idle_device [] (flash_erase_block_32k idle_device 0x10000 []).2 ∧
    StartsWithPoll idle_device [] (flash_erase_block_64k idle_device 0x10000 []).2 ∧
    FinishesWithPoll idle_device [] (flash_erase_sector idle_device 0x10000 []) ∧
    FinishesWithPoll idle_device [] (flash_erase_block_32k idle_device 0x10000 []) ∧
    FinishesWithPoll idle_device [] (flash_erase_block_64k idle_device 0x10000 []) := by
  obtain ⟨r0, rxs, e0, e1, e2, e3, rs, buf, h, -⟩ :=
    read_events idle_device 0x10000 (fun _ => 0) 2 [] (by decide)
  have t := poll_first_and_last idle_device 0x10000 (fun _ => 0) 2 3 []
  exact ⟨⟨buf, _, h, t.1 _ _ _ h⟩, t.2.1 (by decide), t.2.2.2.1 (by decide),
    t.2.2.2.2.1 (by decide), t.2.2.2.2.2.1 (by decide), t.2.2.2.2.2.2.2.2.1 (by decide),
    t.2.2.2.2.2.2.2.2.2.1 (by decide), t.2.2.2.2.2.2.2.2.2.2.1 (by decide)⟩

/-- C16 as stated fails: the first bus action of `flash_write` with length
zero is the deassert of select, while a status poll begins by asserting it; so
the trace does not begin with the poll. -/
theorem empty_write_starts_with_deselect :
    (flash_write idle_device 0 (fun _ => 0) 0 []).2.head? = some BusEvent.cs_high ∧
    (flash_wait_to_idle idle_device []).2.head? = some BusEvent.cs_low ∧
    ¬ StartsWithPoll idle_device [] (flash_write idle_device 0 (fun _ => 0) 0 []).2 := by
  have h1 : (flash_write idle_device 0 (fun _ => 0) 0 []).2.head? = some BusEvent.cs_high := by
    decide
  have h2 : (flash_wait_to_idle idle_device []).2
      = BusEvent.cs_low :: (flash_wait_to_idle idle_device []).2.tail := by decide
  refine ⟨h1, by decide, ?_⟩
  rintro ⟨rest, h⟩
  rw [h, h2] at h1
  simp at h1

/-! ## Chip select -/

theorem csRun_append : ∀ (a b : List BusEvent) (sel : Bool),
    csRun sel (a ++ b) = (csRun sel a).bind fun s => csRun s b := by
  intro a
  induction a with
  | nil => intro b sel; simp [csRun]
  | cons e es ih =>
    intro b sel
    cases e with
    | cs_low => cases sel <;> simp [csRun, ih]
    | cs_high => simp [csRun, ih]
    | transfer tx rx => cases sel <;> simp [csRun, ih]
    | delay_us us => simp [csRun, ih]

theorem csRun_sampleEvents (rxs : List Nat) : csRun true (sampleEvents rxs) = some true := by
  induction rxs with
  | nil => rfl
  | cons rx rest ih => simp [sampleEvents, csRun, ih]

theorem csRun_pollEvents (r0 : Nat) (rxs : List Nat) :
    csRun false (pollEvents r0 rxs) = some false := by
  simp [pollEvents, csRun_append, csRun, csRun_sampleEvents]

theorem csRun_writeEnable (w : Nat) : csRun false (writeEnableEvents w) = some false := by
  simp [writeEnableEvents, csRun]

theorem csRun_transferEvents (l : List (Nat × Nat)) :
    csRun true (transferEvents l) = some true := by
  induction l with
  | nil => rfl
  | cons x rest ih =>
    simp only [transferEvents] at ih ⊢
    simp [csRun, ih]

theorem csRun_fillerEvents (rs : List Nat) : csRun true (fillerEvents rs) = some true := by
  rw [fillerEvents_eq]; exact csRun_transferEvents _

theorem csRun_header (address e0 e1 e2 e3 : Nat) :
    csRun false (programHeaderEvents address e0 e1 e2 e3) = some true := by
  simp [programHeaderEvents, csRun]

theorem csRun_read_header (address e0 e1 e2 e3 : Nat) :
    csRun false (readHeaderEvents address e0 e1 e2 e3) = some true := by
  simp [readHeaderEvents, csRun]

theorem csRun_eraseEvents (opcode address e0 e1 e2 e3 : Nat) :
    csRun false (eraseEvents opcode address e0 e1 e2 e3) = some false := by
  simp [eraseEvents, csRun]

theorem csRun_erase_full_cmd (e0 : Nat) :
    csRun false [BusEvent.cs_low, BusEvent.transfer WINBOND_CHIP_ERASE2 e0, BusEvent.cs_high,
      BusEvent.delay_us 100] = some false := by
  simp [csRun]

theorem csRun_deselect (sel : Bool) : csRun sel [BusEvent.cs_high] = some false := by
  simp [csRun]

theorem csRun_nil (sel : Bool) : csRun sel [] = some sel := by
  simp [csRun]

theorem csRun_cycle (c : ProgramCycle) : csRun false c.events = some false := by
  simp only [ProgramCycle.events, csRun_append, csRun_pollEvents, csRun_writeEnable,
    csRun_header, csRun_transferEvents, csRun_deselect, Option.some_bind]

theorem csRun_cycles (cycles : List ProgramCycle) :
    csRun false (cyclesEvents cycles) = some false := by
  induction cycles with
  | nil => rfl
  | cons c cs ih =>
    simp only [cyclesEvents, csRun_append, csRun_cycle, ih, Option.some_bind]

theorem csRun_erase_body (dev : Device) (opcode address : Nat) (hop : opcode < 256) :
    csRun false (erase_body dev opcode address []).2 = some false := by
  obtain ⟨r0, rxs, w, e0, e1, e2, e3, -, -, h3⟩ := erase_body_sequence dev opcode address [] hop
  obtain ⟨r0', rxs', g1, -⟩ := wait_to_idle_spec dev
    ([] ++ pollEvents r0 rxs ++ writeEnableEvents w ++ eraseEvents opcode address e0 e1 e2 e3)
  rw [h3, g1]
  simp only [csRun_append, csRun_pollEvents, csRun_writeEnable, csRun_eraseEvents, csRun_nil,
    Option.some_bind]

theorem csRun_write (dev : Device) (address : Nat) (pbuf : Nat → Nat) (len : Nat) :
    csRun false (flash_write dev address pbuf len []).2 = some false := by
  by_cases hlen : len = 0
  · subst hlen
    obtain ⟨r0, rxs, h1, -⟩ := wait_to_idle_spec dev (flash_cs_high [])
    have h : (flash_write dev address pbuf 0 []).2 = flash_cs_high [] ++ pollEvents r0 rxs := h1
    rw [h]
    simp only [flash_cs_high, csRun_append, csRun_nil, csRun_deselect, csRun_pollEvents,
      Option.some_bind]
  · obtain ⟨cycles, r0, rxs, h1, -⟩ := write_events dev address pbuf len [] hlen
    rw [h1]
    simp only [csRun_append, csRun_cycles, csRun_pollEvents, csRun_nil, Option.some_bind]

theorem csRun_erase_full (dev : Device) : csRun false (flash_erase_full dev []).2 = some false := by
  obtain ⟨r0, rxs, w, e0, -, -, h3⟩ := erase_full_events dev []
  obtain ⟨r0', rxs', g1, -⟩ := wait_to_idle_spec dev
    ([] ++ pollEvents r0 rxs ++ writeEnableEvents w
      ++ [BusEvent.cs_low, BusEvent.transfer WINBOND_CHIP_ERASE2 e0, BusEvent.cs_high,
          BusEvent.delay_us 100])
  rw [h3, g1]
  simp only [csRun_append, csRun_pollEvents, csRun_writeEnable, csRun_erase_full_cmd, csRun_nil,
    Option.some_bind]

theorem csRun_read (fuel : Nat) (dev : Device) (address : Nat) (buf0 : Nat → Nat) (len : Nat)
    (r : FlashResult) (buf : Nat → Nat) (bus' : Bus)
    (h : flash_read fuel dev address buf0 len [] = some (r, buf, bus')) :
    csRun false bus' = some false := by
  obtain ⟨r0, rxs, e0, e1, e2, e3, rs, -, -, h3⟩ :=
    read_events_of_return fuel dev address buf0 len [] r buf bus' h
  rw [h3]
  simp only [csRun_append, csRun_pollEvents, csRun_read_header, csRun_fillerEvents,
    csRun_deselect, csRun_nil, Option.some_bind]

/-- C19: starting with select deasserted and whatever the device answers, in
the trace of `flash_write`, of each erase operation and of every run of
`flash_read` that returns, select is never asserted while asserted, every
byte exchange happens while select is asserted, and select is deasserted at
the end. -/
theorem chip_select_discipline (dev : Device) (address : Nat) (pbuf : Nat → Nat)
    (len fuel : Nat) :
    csRun false (flash_write dev address pbuf len []).2 = some false ∧
    csRun false (flash_erase_sector dev address []).2 = some false ∧
    csRun false (flash_erase_block_32k dev address []).2 = some false ∧
    csRun false (flash_erase_block_64k dev address []).2 = some false ∧
    csRun false (flash_erase_full dev []).2 = some false ∧
    (∀ r buf bus', flash_read fuel dev address pbuf len [] = some (r, buf, bus') →
      csRun false bus' = some false) := by
  refine ⟨csRun_write dev address pbuf len, ?_, ?_, ?_, csRun_erase_full dev,
    fun r buf bus' h => csRun_read fuel dev address pbuf len r buf bus' h⟩
  · by_cases h : address % 4096 = 0
    · rw [erase_sector_aligned dev address [] h]
      exact csRun_erase_body dev _ address (by decide)
    · rw [erase_sector_ng dev address [] h]; rfl
  · by_cases h : address % 32768 = 0
    · rw [erase_block_32k_aligned dev address [] h]
      exact csRun_erase_body dev _ address (by decide)
    · rw [erase_block_32k_ng dev address [] h]; rfl
  · by_cases h : address % 65536 = 0
    · rw [erase_block_64k_aligned dev address [] h]
      exact csRun_erase_body dev _ address (by decide)
    · rw [erase_block_64k_ng dev address [] h]; rfl

theorem chip_select_discipline_witness :
    ∃ buf bus', flash_read 3 busy_device 0xFF (fun _ => 0) 2 []
        = some (FLASH_DRIVER_OK, buf, bus') ∧ csRun false bus' = some false := by
  obtain ⟨r0, rxs, e0, e1, e2, e3, rs, buf, h, -⟩ :=
    read_events busy_device 0xFF (fun _ => 0) 2 [] (by decide)
  exact ⟨buf, _, h,
    (chip_select_discipline busy_device 0xFF (fun _ => 0) 2 3).2.2.2.2.2 _ _ _ h⟩
